import Mathlib

/-!
# Verification of the civitai-dl download engine (`civitai_dl/core/downloader.py`)

This file shallowly embeds the per-task download state machine
(`DownloadTask._download`, `start`, `cancel`, `wait`,
`_extract_filename_from_header`, `_trigger_completion_callbacks`) and the
engine dispatcher (`DownloadEngine.download` / `ThreadPoolExecutor`
scheduling) as executable Lean definitions, and proves or refutes the
frozen specification claims about them.

Modelling conventions:
* Strings are `List Char` (`Str`); the filesystem is an association list
  from paths to on-disk byte counts (file contents beyond length are not
  observed by any claim).
* One network "attempt" (one pass through `_download`) is scripted by an
  `Attempt` record giving the outcome of the initial HEAD request, the GET
  request (as a function of the `Range` offset that was sent), and the
  extra HEAD request performed inside the 416-recovery handler.
* Wall-clock time, download speed sampling, and the progress-callback
  cadence (`elapsed >= 0.5`) only feed the `speed` field and progress
  callbacks, which no claim is about; they are not modelled.  The
  cooperative stop event is modelled by the iteration index from which the
  worker observes it set (`stopAt`), since it is set concurrently.
* Every observable action (requests issued, size/total mutations, status
  transitions, completion-callback dispatches) is recorded in an event log
  so that trace properties (monotonicity, exactly-once) can be stated.
-/

set_option maxHeartbeats 1600000
set_option linter.unusedVariables false

namespace CivitaiDl

abbrev Str := List Char

/-! ## Filename extraction (`DownloadTask._extract_filename_from_header`)

The Python code runs `re.findall('filename\\*?=(?:"([^"]+)"|([^;\\s]+))', cd)`
and then scans the matches, preferring an RFC 5987 `filename*=UTF-8''…`
value (percent-decoded via `urllib.parse.unquote`) over a plain
`filename=`/`filename="…"` value, sanitizes `[\\/*?:"<>|]` to `_` and strips
surrounding whitespace.  The regex is embedded as a hand-rolled scanner with
the same backtracking behaviour. -/

/-- ASCII whitespace, as matched by Python's `\s` (ASCII range) and
stripped by `str.strip()`. -/
def isSpaceC (c : Char) : Bool :=
  c == ' ' || c == '\t' || c == '\n' || c == '\r' || c == '\x0b' || c == '\x0c'

/-- Characters replaced by `_` by the sanitizing `re.sub` call. -/
def illegalChar (c : Char) : Bool :=
  c == '\\' || c == '/' || c == '*' || c == '?' || c == ':' || c == '"' ||
    c == '<' || c == '>' || c == '|'

/-- One-character step of the sanitizing substitution. -/
def sanitizeChar (c : Char) : Char := if illegalChar c then '_' else c

/-- Python `str.strip()` for ASCII whitespace. -/
def stripL (l : Str) : Str :=
  ((l.dropWhile isSpaceC).reverse.dropWhile isSpaceC).reverse

/-- Hexadecimal digit value, as accepted by `urllib.parse.unquote`. -/
def hexVal (c : Char) : Option Nat :=
  if '0' ≤ c ∧ c ≤ '9' then some (c.toNat - '0'.toNat)
  else if 'a' ≤ c ∧ c ≤ 'f' then some (c.toNat - 'a'.toNat + 10)
  else if 'A' ≤ c ∧ c ≤ 'F' then some (c.toNat - 'A'.toNat + 10)
  else none

/-- Model of `urllib.parse.unquote` for ASCII percent-encodings: each valid
`%XY` pair becomes the character with code `16*X+Y`, invalid escapes are kept
literally.  (Multi-byte UTF-8 escape sequences, which `unquote` assembles
before decoding, coincide with this byte-by-byte decoding on the ASCII range
that the claims quantify over.) -/
def pctDecode (l : Str) : Str :=
  match l with
  | [] => []
  | c :: rest =>
    if c = '%' then
      match rest with
      | a :: b :: rest2 =>
        match hexVal a, hexVal b with
        | some x, some y => Char.ofNat (16 * x + y) :: pctDecode rest2
        | _, _ => '%' :: pctDecode (a :: b :: rest2)
      | [a] => '%' :: pctDecode [a]
      | [] => ['%']
    else c :: pctDecode rest

/-- Characters on which the regex alternative `([^;\s]+)` keeps matching. -/
def nonDelim (c : Char) : Bool := !(c == ';' || isSpaceC c)

/-- Groups and remaining input of one successful regex match. -/
structure MatchRes where
  g1 : Option Str
  g2 : Option Str
  rest : Str
  deriving Repr, DecidableEq

/-- Scan for a closing quote: `scanQuoted r = some (cont, rest)` iff
`r = cont ++ '"' :: rest` with no quote in `cont` (the regex piece
`([^"]+)"`; emptiness of the content is checked by the caller). -/
def scanQuoted : Str → Option (Str × Str)
  | [] => none
  | c :: r =>
    if c = '"' then some ([], r)
    else
      match scanQuoted r with
      | some (cont, rest) => some (c :: cont, rest)
      | none => none

/-- Longest run of non-delimiter characters (the regex piece `([^;\s]+)`). -/
def scanToken : Str → Str
  | [] => []
  | c :: r => if nonDelim c then c :: scanToken r else []

/-- Input remaining after `scanToken`. -/
def dropToken : Str → Str
  | [] => []
  | c :: r => if nonDelim c then dropToken r else c :: r

/-- Match the alternative `([^;\s]+)` at the current position. -/
def matchUnquoted (l : Str) : Option MatchRes :=
  if (scanToken l).isEmpty then none
  else some ⟨none, some (scanToken l), dropToken l⟩

/-- Match `(?:"([^"]+)"|([^;\s]+))` at the current position: try the quoted
branch first; on failure (no closing quote, or empty content) backtrack to
the unquoted branch, which may then consume the opening quote itself. -/
def matchValue (l : Str) : Option MatchRes :=
  match l with
  | [] => none
  | c :: r =>
    if c = '"' then
      match scanQuoted r with
      | some (cont, rest) =>
        if cont.isEmpty then matchUnquoted l else some ⟨some cont, none, rest⟩
      | none => matchUnquoted l
    else matchUnquoted l

/-- Boolean literal-prefix test (needle first, haystack second). -/
def startsWithL : Str → Str → Bool
  | [], _ => true
  | _ :: _, [] => false
  | p :: ps, c :: cs => p == c && startsWithL ps cs

/-- Match `\*?=` followed by the value alternatives (the optional greedy
`\*?` tries the starred form first, which succeeds exactly when the next
characters are `*=`). -/
def matchAfterName (l : Str) : Option MatchRes :=
  if startsWithL ['*', '='] l then matchValue (l.drop 2)
  else if startsWithL ['='] l then matchValue (l.drop 1)
  else none

/-- The literal `filename` that anchors every regex match. -/
def filenameMark : Str := ['f', 'i', 'l', 'e', 'n', 'a', 'm', 'e']

/-- Try to match the whole pattern `filename\*?=(?:"([^"]+)"|([^;\s]+))`
at the current position. -/
def matchAt (l : Str) : Option MatchRes :=
  if startsWithL filenameMark l then matchAfterName (l.drop 8) else none

/-- Fuelled scan for `re.findall`: try a match at each position, resuming
after the end of each successful (non-overlapping) match.  One unit of fuel
is spent per scan position, and every step strictly shrinks the input, so
`l.length` fuel always suffices. -/
def findAllF : Nat → Str → List (Str × Str)
  | _, [] => []
  | 0, _ :: _ => []
  | n + 1, c :: cs =>
    match matchAt (c :: cs) with
    | some m => (m.g1.getD [], m.g2.getD []) :: findAllF n m.rest
    | none => findAllF n cs

/-- `re.findall`: scan left to right, collecting non-overlapping matches;
unmatched groups come back as the empty string, as in Python. -/
def findAll (l : Str) : List (Str × Str) := findAllF l.length l

/-- The literal `UTF-8''` marker of RFC 5987 extended values. -/
def utf8Mark : Str := ['U', 'T', 'F', '-', '8', '\'', '\'']

/-- One iteration of the match-priority loop: an extended (`filename*`)
value overwrites the `filename_star` slot (percent-decoded), a plain value
overwrites the `filename_plain` slot.  Mirrors the Python `for match in
fname` body, including the truthiness tests. -/
def pickStep (acc : Option Str × Option Str) (m : Str × Str) : Option Str × Option Str :=
  if startsWithL utf8Mark m.1 || startsWithL utf8Mark m.2 then
    (some (pctDecode (if m.1.isEmpty then m.2.drop 7 else m.1.drop 7)), acc.2)
  else if !m.1.isEmpty then (acc.1, some m.1)
  else if !m.2.isEmpty then (acc.1, some m.2)
  else acc

/-- The full priority loop over all regex matches. -/
def pickName (ms : List (Str × Str)) : Option Str × Option Str :=
  ms.foldl pickStep (none, none)

/-- `DownloadTask._extract_filename_from_header`: regex scan, extended-form
priority, percent-decoding, sanitization and stripping.  Returns `none`
exactly where the Python function returns `None` (empty header, no match, or
an empty selected name). -/
def extractFilenameL (cd : Str) : Option Str :=
  if cd.isEmpty then none
  else
    match findAll cd with
    | [] => none
    | m0 :: ms =>
      let sp := pickName (m0 :: ms)
      let fname := match sp.1 with
        | some st => if st.isEmpty then sp.2 else some st
        | none => sp.2
      match fname with
      | some f => if f.isEmpty then none else some (stripL (f.map sanitizeChar))
      | none => none

/-! ## Task state (`DownloadTask`)

The fields below are the `DownloadTask` attributes that the claims are
about.  Wall-clock fields (`start_time`, `end_time`, `speed`) and the
derived `progress`/`eta` properties are not modelled (no claim mentions
them); `_stop_event` is `stopRequested`; `_retry_count` is `retryCount`;
the number of `_trigger_completion_callbacks` dispatches is observable in
the event log. -/

inductive Status
  | pending
  | running
  | completed
  | failed
  | canceled
  deriving Repr, DecidableEq

/-- The three states of `pending → running → {completed, failed, canceled}`
from which the code never moves on. -/
def Status.isTerminal : Status → Bool
  | .completed => true
  | .failed => true
  | .canceled => true
  | _ => false

abbrev Headers := List (Str × Str)

/-- Python dict assignment `d[k] = v` on an association list. -/
def dictSet (hs : Headers) (k v : Str) : Headers :=
  match hs with
  | [] => [(k, v)]
  | (k2, v2) :: rest => if k2 = k then (k, v) :: rest else (k2, v2) :: dictSet rest k v

/-- The local filesystem: paths mapped to on-disk byte counts (claims only
observe file lengths). -/
abbrev Fs := List (Str × Nat)

/-- `os.path.getsize` / `os.path.exists` (`none` = absent). -/
def fsGet (fs : Fs) (p : Str) : Option Nat :=
  match fs with
  | [] => none
  | (q, n) :: rest => if q = p then some n else fsGet rest p

/-- Create or truncate/overwrite a file's length. -/
def fsSet (fs : Fs) (p : Str) (n : Nat) : Fs :=
  match fs with
  | [] => [(p, n)]
  | (q, m) :: rest => if q = p then (p, n) :: rest else (q, m) :: fsSet rest p n

/-- `os.remove` (removing an absent file is a no-op here; the code guards
the call with `os.path.exists`). -/
def fsRemove (fs : Fs) (p : Str) : Fs :=
  match fs with
  | [] => []
  | (q, m) :: rest => if q = p then fsRemove rest p else (q, m) :: fsRemove rest p

/-- `os.path.dirname` (POSIX: everything before the last slash). -/
def dirnameL (p : Str) : Str :=
  ((p.reverse.dropWhile (fun c => !(c == '/'))).drop 1).reverse

/-- `os.path.join` with a relative second component. -/
def joinL (d name : Str) : Str :=
  if d.isEmpty then name else d ++ '/' :: name

structure TaskState where
  url : Str
  filePath : Str
  useRange : Bool
  headers : Headers
  totalSize : Option Nat := none
  downloadedSize : Nat := 0
  status : Status := .pending
  error : Option Str := none
  retryCount : Nat := 0
  stopRequested : Bool := false
  deriving Repr, DecidableEq

/-- `DownloadTask.__init__` for a task built with an explicit resolved
`file_path`, exactly as `DownloadEngine.download` builds it.  (The
constructor's URL-basename fallback and `_ensure_proper_extension` only
pre-process the path argument and are the identity on paths that already
carry an extension; no claim is about them, so the resolved path is taken
as given.) -/
def mkTask (url filePath : Str) (useRange : Bool) (headers : Headers) : TaskState :=
  { url := url, filePath := filePath, useRange := useRange, headers := headers }

/-- Tags identifying which source line mutated `downloaded_size`/`total_size`
(for trace statements only; they carry no semantic content). -/
inductive SizeTag
  | headTotal
  | skipExisting
  | resumeSet
  | corruptReset
  | zeroReset
  | getTotal
  | chunk
  | recovery416
  | retryReset
  deriving Repr, DecidableEq

/-- Observable events of a worker run, in program order. -/
inductive Ev
  | headReq (hs : Headers)
  | getReq (hs : Headers) (rangeOffset : Option Nat)
  | size (tag : SizeTag) (downloaded : Nat) (total : Option Nat)
  | statusSet (st : Status)
  | callbacks
  deriving Repr, DecidableEq

/-- Outcome of one HEAD request (`fail` = any `requests` exception,
including a bad status raised by `raise_for_status`). -/
inductive HeadOutcome
  | fail
  | ok (contentLength : Option Nat) (disposition : Option Str)

/-- Outcome of one GET request.  `chunks` are the sizes yielded by
`iter_content`; `stopAt` is the iteration index from which the concurrently
settable `_stop_event` is observed set (`none` = never). -/
inductive GetOutcome
  | netError (msg : Str)
  | httpError (code : Nat)
  | ok (contentLength : Option Nat) (disposition : Option Str)
      (chunks : List Nat) (stopAt : Option Nat)

/-- Scripted server/world behaviour for one pass through `_download`:
the initial HEAD, the GET as a function of the Range offset sent (`none`
when no `Range` header was added), and the fresh HEAD performed inside the
416-recovery handler. -/
structure Attempt where
  head : HeadOutcome
  get : Option Nat → GetOutcome
  recoveryHead : HeadOutcome

/-- The `Range` header key. -/
def rangeKey : Str := ['R', 'a', 'n', 'g', 'e']

/-- `f"bytes=existing_size-"`. -/
def rangeVal (o : Nat) : Str :=
  ['b', 'y', 't', 'e', 's', '='] ++ Nat.toDigits 10 o ++ ['-']

/-- The headers actually sent with the GET: `self.headers.copy()` plus, on
a resume, the `Range` entry (added only to the copy). -/
def requestHeaders (hs : Headers) : Option Nat → Headers
  | none => hs
  | some o => dictSet hs rangeKey (rangeVal o)

/-- Lines 196–211: honour a Content-Disposition filename (if one extracts
and differs, update `file_path`, keeping the directory). -/
def headRename (disp : Option Str) (s : TaskState) : TaskState :=
  match disp with
  | none => s
  | some d =>
    match extractFilenameL d with
    | some name =>
      if name.isEmpty then s
      else
        let np := joinL (dirnameL s.filePath) name
        if np = s.filePath then s else { s with filePath := np }
    | none => s

/-- Lines 184–219 of `_download`: best-effort HEAD; on success, honour a
Content-Disposition filename (always, in this early phase) and record the
content length when `not self.total_size` (Python truthiness: unset or 0). -/
def phaseHead (h : HeadOutcome) (s : TaskState) : TaskState × List Ev :=
  match h with
  | .fail => (s, [Ev.headReq s.headers])
  | .ok cl disp =>
    let s1 := headRename disp s
    match cl with
    | some n =>
      if s1.totalSize = none ∨ s1.totalSize = some 0 then
        ({ s1 with totalSize := some n },
          [Ev.headReq s.headers, Ev.size .headTotal s1.downloadedSize (some n)])
      else (s1, [Ev.headReq s.headers])
    | none => (s1, [Ev.headReq s.headers])

/-- File open mode chosen by the resume decision. -/
inductive FMode
  | wb
  | ab
  deriving Repr, DecidableEq

/-- Result of the resume decision (lines 221–259): either the
already-complete early return, or a GET with the chosen mode and Range
offset. -/
inductive ResumeOut
  | skip (fs : Fs) (s : TaskState) (ev : List Ev)
  | go (fs : Fs) (s : TaskState) (ev : List Ev) (mode : FMode) (off : Option Nat)

/-- Lines 221–259 of `_download`: inspect the local file.  Existing file of
exactly the known total size → mark completed and return without a GET;
smaller (or unknown total) → append mode plus `Range`; larger → delete and
start fresh; absent/empty/range-disabled → fresh write. -/
def phaseResume (fs : Fs) (s : TaskState) : ResumeOut :=
  if s.useRange then
    match fsGet fs s.filePath with
    | some existing =>
      if 0 < existing then
        match s.totalSize with
        | some t =>
          if existing = t then
            .skip fs { s with downloadedSize := existing, status := .completed }
              [Ev.size .skipExisting existing (some t),
                Ev.statusSet .completed, Ev.callbacks]
          else if existing < t then
            .go fs { s with downloadedSize := existing }
              [Ev.size .resumeSet existing (some t)] .ab (some existing)
          else
            .go (fsRemove fs s.filePath) { s with downloadedSize := 0 }
              [Ev.size .corruptReset 0 (some t)] .wb none
        | none =>
          .go fs { s with downloadedSize := existing }
            [Ev.size .resumeSet existing none] .ab (some existing)
      else
        .go fs { s with downloadedSize := 0 } [Ev.size .zeroReset 0 s.totalSize] .wb none
    | none =>
      .go fs { s with downloadedSize := 0 } [Ev.size .zeroReset 0 s.totalSize] .wb none
  else
    .go fs { s with downloadedSize := 0 } [Ev.size .zeroReset 0 s.totalSize] .wb none

/-- Lines 274–292: the GET response's Content-Disposition renames the file
only when starting fresh (`mode == "wb"`). -/
def getRename (disp : Option Str) (mode : FMode) (s : TaskState) : TaskState :=
  match disp with
  | none => s
  | some d =>
    match extractFilenameL d with
    | some name =>
      if ¬name.isEmpty ∧ mode = .wb then
        let np := joinL (dirnameL s.filePath) name
        if np = s.filePath then s else { s with filePath := np }
      else s
    | none => s

/-- Lines 293–319: determine `total_size` from the GET `Content-Length`:
for an append (206) it is the remaining size, so the total is
`content_length + downloaded_size`; for a fresh download it is the total;
in both cases only when `total_size is None`. -/
def phaseGetTotal (cl : Option Nat) (mode : FMode) (s : TaskState) : TaskState × List Ev :=
  match cl with
  | some n =>
    match mode with
    | .ab =>
      match s.totalSize with
      | none =>
        ({ s with totalSize := some (n + s.downloadedSize) },
          [Ev.size .getTotal s.downloadedSize (some (n + s.downloadedSize))])
      | some _ => (s, [])
    | .wb =>
      match s.totalSize with
      | none => ({ s with totalSize := some n }, [Ev.size .getTotal s.downloadedSize (some n)])
      | some _ => (s, [])
  | none => (s, [])

/-- `open(self.file_path, mode)`: `"wb"` truncates/creates, `"ab"` keeps
the existing content (creating an empty file if absent). -/
def openFile (mode : FMode) (fs : Fs) (path : Str) : Fs :=
  match mode with
  | .wb => fsSet fs path 0
  | .ab =>
    match fsGet fs path with
    | some _ => fs
    | none => fsSet fs path 0

/-- Whether `self._stop_event.is_set()` reads true at chunk iteration `i`. -/
def stopObserved (stopAt : Option Nat) (i : Nat) : Bool :=
  match stopAt with
  | some j => decide (j ≤ i)
  | none => false

structure StreamRes where
  fs : Fs
  s : TaskState
  log : List Ev
  stopped : Bool

/-- Lines 321–358, the chunk loop: check the stop event first (observing it
transitions to `canceled`, fires the completion callbacks and returns);
skip empty keep-alive chunks; otherwise write the chunk and increment
`downloaded_size`.  (The `elapsed >= 0.5` speed/progress-callback block only
feeds `speed` and progress callbacks, which no claim observes.) -/
def streamChunks (stopAt : Option Nat) (path : Str) :
    List Nat → Nat → Fs → TaskState → StreamRes
  | [], _, fs, s => ⟨fs, s, [], false⟩
  | c :: rest, i, fs, s =>
    if stopObserved stopAt i then
      ⟨fs, { s with status := .canceled }, [Ev.statusSet .canceled, Ev.callbacks], true⟩
    else if c = 0 then
      streamChunks stopAt path rest (i + 1) fs s
    else
      let fs2 := fsSet fs path ((fsGet fs path).getD 0 + c)
      let s2 := { s with downloadedSize := s.downloadedSize + c }
      let r := streamChunks stopAt path rest (i + 1) fs2 s2
      ⟨r.fs, r.s, Ev.size .chunk s2.downloadedSize s2.totalSize :: r.log, r.stopped⟩

/-- Lines 446–453, the outer `except`: unless the task was cancelled, mark
it `failed`, record the message, and fire the completion callbacks. -/
def failTask (m : Str) (s : TaskState) : TaskState × List Ev :=
  if s.status = .canceled then (s, [])
  else
    ({ s with status := .failed, error := some m },
      [Ev.statusSet .failed, Ev.callbacks])

/-- Lines 430–444: after a normal stream exhaustion, a still-`running` task
becomes `completed`; the completion callbacks then fire unconditionally. -/
def finishOk (s : TaskState) : TaskState × List Ev :=
  if s.status = .running then
    ({ s with status := .completed }, [Ev.statusSet .completed, Ev.callbacks])
  else (s, [Ev.callbacks])

/-- Result of one pass through `_download`: either a finished pass, or the
416 bounded-retry re-invocation (`return self._download()`). -/
inductive AOut
  | done (fs : Fs) (s : TaskState) (log : List Ev)
  | retry (fs : Fs) (s : TaskState) (log : List Ev)

/-- Lines 407–425: the tail of the 416 handler.  First occurrence
(`_retry_count == 0`): delete the local file, disable range-resume, reset
both sizes and re-run the transfer; otherwise re-raise, which the outer
handler converts to `failed`. -/
def restart416 (fs : Fs) (s : TaskState) (ev : List Ev) : AOut :=
  if s.retryCount = 0 then
    .retry (fsRemove fs s.filePath)
      { s with retryCount := 1, useRange := false, downloadedSize := 0, totalSize := none }
      (ev ++ [Ev.size .retryReset 0 none])
  else
    let fl := failTask (Nat.toDigits 10 416) s
    .done fs fl.1 (ev ++ fl.2)

/-- Lines 371–399 condensed: the fresh HEAD of the 416 handler "verifies"
the task exactly when it reports a content length `r` (missing length reads
as `-1`) with `existing_size >= r`; the verified remote total is returned. -/
def recoveryOk (h : HeadOutcome) (existing : Nat) : Option Nat :=
  match h with
  | .ok (some r) _ => if r ≤ existing then some r else none
  | _ => none

/-- One pass through `_download` (lines 174–453), driven by the scripted
`Attempt`.  The 416 branch (lines 360–425) re-checks the file size, issues a
fresh HEAD, and either marks the task completed (local ≥ remote) or falls
into `restart416`. -/
def runAttempt (a : Attempt) (fs : Fs) (s : TaskState) : AOut :=
  let hd := phaseHead a.head s
  let s1 := hd.1
  let ev1 := hd.2
  match phaseResume fs s1 with
  | .skip fs2 s2 ev2 => .done fs2 s2 (ev1 ++ ev2)
  | .go fs2 s2 ev2 mode off =>
    let evG := Ev.getReq (requestHeaders s2.headers off) off
    match a.get off with
    | .netError m =>
      let fl := failTask m s2
      .done fs2 fl.1 (ev1 ++ ev2 ++ evG :: fl.2)
    | .httpError code =>
      if code = 416 then
        match fsGet fs2 s2.filePath with
        | some existing =>
          match recoveryOk a.recoveryHead existing with
          | some r =>
            .done fs2
              { s2 with
                totalSize := some r
                downloadedSize := existing
                status := .completed }
              (ev1 ++ ev2 ++ [evG, Ev.headReq s2.headers,
                Ev.size .recovery416 existing (some r),
                Ev.statusSet .completed, Ev.callbacks])
          | none => restart416 fs2 s2 (ev1 ++ ev2 ++ [evG, Ev.headReq s2.headers])
        | none => restart416 fs2 s2 (ev1 ++ ev2 ++ [evG])
      else
        let fl := failTask (Nat.toDigits 10 code) s2
        .done fs2 fl.1 (ev1 ++ ev2 ++ evG :: fl.2)
    | .ok cl disp chunks stopAt =>
      let s3 := getRename disp mode s2
      let gt := phaseGetTotal cl mode s3
      let s4 := gt.1
      let fs3 := openFile mode fs2 s4.filePath
      let st := streamChunks stopAt s4.filePath chunks 0 fs3 s4
      if st.stopped then
        .done st.fs st.s (ev1 ++ ev2 ++ evG :: (gt.2 ++ st.log))
      else
        let fin := finishOk st.s
        .done st.fs fin.1 (ev1 ++ ev2 ++ evG :: (gt.2 ++ st.log ++ fin.2))

structure RunRes where
  fs : Fs
  s : TaskState
  logs : List (List Ev)

/-- The full worker execution: run attempts, following the bounded
`return self._download()` retry of the 416 handler.  Each scripted attempt
describes the outside world for one pass; the logs are returned pass by
pass, in order.  (An exhausted script leaves the state untouched; with two
scripted attempts this case is unreachable, since `_retry_count` admits at
most one retry.) -/
def runDownload : List Attempt → Fs → TaskState → RunRes
  | [], fs, s => ⟨fs, s, []⟩
  | a :: rest, fs, s =>
    match runAttempt a fs s with
    | .done fs2 s2 log => ⟨fs2, s2, [log]⟩
    | .retry fs2 s2 log =>
      let r := runDownload rest fs2 s2
      ⟨r.fs, r.s, log :: r.logs⟩

/-- `DownloadTask.start` plus the spawned worker thread running
`_download` to completion: a no-op (warning only) unless `pending`;
otherwise the status becomes `running` and the transfer runs. -/
def startRun (attempts : List Attempt) (fs : Fs) (s : TaskState) : RunRes :=
  if s.status = .pending then
    let r := runDownload attempts fs { s with status := .running }
    ⟨r.fs, r.s, [Ev.statusSet .running] :: r.logs⟩
  else ⟨fs, s, []⟩

/-- `DownloadTask.cancel` (lines 506–518): on `running`, set the stop event
only; on `pending`, transition straight to `canceled` and fire the
completion callbacks synchronously; otherwise do nothing. -/
def cancelTask (s : TaskState) : TaskState × List Ev :=
  if s.status = .running then ({ s with stopRequested := true }, [])
  else if s.status = .pending then
    ({ s with status := .canceled }, [Ev.statusSet .canceled, Ev.callbacks])
  else (s, [])

/-- `DownloadTask.wait` (lines 520–524): after the (possibly timed-out)
`join`, return `self.status == "completed"`; nothing else is read or
written.  The thread-exited flag and the on-disk size observable at that
moment are passed in only so the spec's reconciliation variant can be
stated over the same inputs; the code ignores both. -/
def waitCode (threadExited : Bool) (diskSize : Option Nat) (s : TaskState) :
    TaskState × Bool :=
  (s, decide (s.status = Status.completed))

/-- Modelled from the spec: `wait(timeout)` as claim C2 describes it —
"if the thread has exited but status is still `running`, reconcile by
comparing on-disk file size to the known total size before falling back to
`failed`. Returns true iff the task ended `completed`."  This definition
follows the spec's words; the code's `wait` is `waitCode`. -/
def waitSpecModel (threadExited : Bool) (diskSize : Option Nat) (s : TaskState) :
    TaskState × Bool :=
  if threadExited ∧ s.status = .running then
    match diskSize, s.totalSize with
    | some d, some t =>
      if d = t then ({ s with status := .completed }, true)
      else ({ s with status := .failed }, false)
    | _, _ => ({ s with status := .failed }, false)
  else (s, decide (s.status = Status.completed))

/-- Status transitions recorded in a log, in order. -/
def statusEvents (log : List Ev) : List Status :=
  log.filterMap fun ev =>
    match ev with
    | .statusSet st => some st
    | _ => none

/-- Number of `_trigger_completion_callbacks` dispatches in a log. -/
def countCallbacks (log : List Ev) : Nat :=
  log.countP fun ev =>
    match ev with
    | .callbacks => true
    | _ => false

/-- The `(tag, downloaded_size, total_size)` trace of size mutations. -/
def sizeEntries (log : List Ev) : List (SizeTag × Nat × Option Nat) :=
  log.filterMap fun ev =>
    match ev with
    | .size t d tot => some (t, d, tot)
    | _ => none

/-- The GET requests issued during a run, with the headers actually sent. -/
def getReqs (log : List Ev) : List (Headers × Option Nat) :=
  log.filterMap fun ev =>
    match ev with
    | .getReq hs off => some (hs, off)
    | _ => none

/-- The HEAD requests issued during a run, with the headers sent. -/
def headReqs (log : List Ev) : List Headers :=
  log.filterMap fun ev =>
    match ev with
    | .headReq hs => some hs
    | _ => none

/-! ## Engine dispatcher (`DownloadEngine` with `ThreadPoolExecutor`)

`DownloadEngine.__init__` creates
`ThreadPoolExecutor(max_workers=self.concurrent_downloads)`, and
`download()` constructs a `pending` task and calls
`executor.submit(task.start, ...)`.  The submitted job is `task.start`
itself (lines 162–172), which sets the status to `running`, spawns a fresh
`threading.Thread(target=self._download)` — *outside* the pool — and
returns immediately, freeing its pool worker while `_download` keeps
running on the spawned thread.

The small transition system below models exactly that scheduling: `queue`
holds submitted start-jobs not yet assigned to a pool worker, `workers`
holds start-jobs currently occupying one of the at most `limit` pool
workers, and `threads` holds the spawned `_download` threads still running.
Task bodies are abstracted to their status, which is all claim C1
observes.  Every step of the relation is a behaviour the Python runtime can
exhibit. -/

structure EngSt where
  limit : Nat
  statuses : List Status
  queue : List Nat
  workers : List Nat
  threads : List Nat
  deriving Repr, DecidableEq

/-- One scheduling step of the engine. -/
inductive EngStep : EngSt → EngSt → Prop
  | dispatch (e : EngSt) (i : Nat) (q : List Nat)
      (hq : e.queue = i :: q) (hw : e.workers.length < e.limit) :
      EngStep e { e with queue := q, workers := i :: e.workers }
  | runStart (e : EngSt) (i : Nat) (w : List Nat)
      (hw : e.workers = i :: w) (hs : e.statuses.get? i = some .pending) :
      EngStep e
        { e with
          statuses := e.statuses.set i .running
          workers := w
          threads := i :: e.threads }
  | finishDl (e : EngSt) (i : Nat) (t : List Nat)
      (ht : e.threads = i :: t) :
      EngStep e { e with statuses := e.statuses.set i .completed, threads := t }

/-- Reachability under engine scheduling. -/
def EngReach : EngSt → EngSt → Prop := Relation.ReflTransGen EngStep

/-- Number of tasks simultaneously in `running` status. -/
def countRunning (sts : List Status) : Nat :=
  sts.countP fun st => decide (st = Status.running)

/-- `DownloadEngine(concurrent_downloads=1)` directly after two
`download()` calls: both tasks are `pending` and both `task.start` jobs are
queued for the single-worker pool. -/
def engTwoSubmitted : EngSt :=
  ⟨1, [.pending, .pending], [0, 1], [], []⟩

/-! ## Claim C2 — wait(timeout)

The code's `wait` joins the thread and returns `self.status == "completed"`;
it performs no reconciliation of a stale `running` status, contradicting
the middle part of the claim. -/

/-- The observation point the claim describes: the worker thread has exited
while the status is still `running`, and the on-disk file size equals the
known total size. -/
def waitStuckState : TaskState :=
  { mkTask [] ['f'] true [] with
    status := .running
    totalSize := some 100
    downloadedSize := 100 }

/-- The `Range` offsets of the GET requests a run issued, in order. -/
def getOffsets (r : RunRes) : List (Option Nat) :=
  (getReqs r.logs.flatten).map Prod.snd

/-! ## Claim C4 — skip when the local file is already complete -/

/-- C4 counterexample world: HEAD reports a total of 100 bytes; the GET
serves the full 100-byte body. -/
def c4Attempt : Attempt :=
  ⟨.ok (some 100) none, fun _ => .ok (some 100) none [100] none, .fail⟩

/-- C4 witness world for the amended theorem. -/
def c4WitnessAttempt : Attempt :=
  ⟨.ok (some 100) none, fun _ => .netError [], .fail⟩

/-- C3 witness world: local file of 1200 bytes, HEAD without content
length, GET answers 416, recovery HEAD reports a remote total of 1000. -/
def c3WitnessA1 : Attempt :=
  ⟨.ok none none, fun _ => .httpError 416, .ok (some 1000) none⟩

/-- Second scripted attempt for the C3 witness (never reached). -/
def c3WitnessA2 : Attempt :=
  ⟨.fail, fun _ => .netError [], .fail⟩

/-! ## Claim C5 — monotonicity and boundedness of `downloaded_size` -/

/-- An entry respects "downloaded never exceeds a known total", except the
416-recovery completion entry, which copies the (possibly larger) on-disk
size into `downloaded_size` (the code comments "May be slightly larger"). -/
def entryBound : SizeTag × Nat × Option Nat → Prop
  | (t, d, some tot) => t = SizeTag.recovery416 ∨ d ≤ tot
  | (_, _, none) => True

/-- The downloaded-size column is non-decreasing starting from `d0`,
except that a 416-retry reset entry may drop back to zero. -/
def monoFrom : Nat → List (SizeTag × Nat × Option Nat) → Prop
  | _, [] => True
  | d0, (t, d, _) :: rest => (t = SizeTag.retryReset ∨ d0 ≤ d) ∧ monoFrom d rest

/-- Last downloaded value of a size trace, with a default. -/
def lastD (l : List (SizeTag × Nat × Option Nat)) (d0 : Nat) : Nat :=
  match l with
  | [] => d0
  | (_, d, _) :: rest => lastD rest d

/-- HTTP conformance of one scripted attempt against a fixed remote
resource of `S` bytes: any announced content length is the full remote
size (HEAD / plain GET) or the remaining size (206 answer to a Range
request at a valid offset), and the delivered body never exceeds what the
response announced. -/
def wfAttempt (S : Nat) (a : Attempt) : Prop :=
  (∀ cl d, a.head = HeadOutcome.ok cl d → cl = none ∨ cl = some S) ∧
  (∀ cl d, a.recoveryHead = HeadOutcome.ok cl d → cl = none ∨ cl = some S) ∧
  (∀ cl d ch st, a.get none = GetOutcome.ok cl d ch st →
    (cl = none ∨ cl = some S) ∧ ch.sum ≤ S) ∧
  (∀ o cl d ch st, a.get (some o) = GetOutcome.ok cl d ch st →
    o ≤ S ∧ cl = some (S - o) ∧ ch.sum ≤ S - o)

/-- C5 counterexample world A: local file of 1200 bytes, remote shrunk to
1000 bytes; HEAD has no content length, the Range GET gets 416, and the
recovery HEAD reports 1000. -/
def c5AttA : Attempt :=
  ⟨.ok none none, fun _ => .httpError 416, .ok (some 1000) none⟩

/-- C5 counterexample world B, first pass: as in world A but the recovery
HEAD fails, forcing the range-less retry. -/
def c5AttB1 : Attempt :=
  ⟨.ok none none, fun _ => .httpError 416, .fail⟩

/-- C5 counterexample world B, retry pass: a clean 1000-byte download. -/
def c5AttB2 : Attempt :=
  ⟨.fail, fun _ => .ok (some 1000) none [1000] none, .fail⟩

/-- A concrete conformant world for the C5 witness: a 100-byte resource,
HEAD announcing 100, a plain GET delivering 40 + 60 bytes, and a 416 for
any Range request (no offset is valid against an un-started file). -/
def c5WitnessAtt : Attempt :=
  ⟨.ok (some 100) none,
    fun off =>
      match off with
      | none => .ok (some 100) none [40, 60] none
      | some _ => .httpError 416,
    .fail⟩

/-- The `attachment; ` parameter-list prefix of the C8 header family. -/
def c8Pre : Str := ['a', 't', 't', 'a', 'c', 'h', 'm', 'e', 'n', 't', ';', ' ']

/-- Everything after the plain parameter: `; filename*=UTF-8''<e>`. -/
def c8Tail (e : Str) : Str :=
  ';' :: ' ' :: (filenameMark ++ '*' :: '=' :: (utf8Mark ++ e))

/-- The C8 family of Content-Disposition headers carrying both forms:
`attachment; filename="<p>"; filename*=UTF-8''<e>`. -/
def c8Header (p e : Str) : Str :=
  c8Pre ++ (filenameMark ++ '=' :: '"' :: (p ++ ('"' :: c8Tail e)))

theorem scanQuoted_len {l cont rest : Str} (h : scanQuoted l = some (cont, rest)) :
    rest.length < l.length := by
  induction l generalizing cont rest with
  | nil => simp [scanQuoted] at h
  | cons a r ih =>
    simp only [scanQuoted] at h
    split_ifs at h with ha
    · simp only [Option.some.injEq, Prod.mk.injEq] at h
      obtain ⟨-, h2⟩ := h
      subst h2
      simp only [List.length_cons]
      omega
    · cases hr : scanQuoted r with
      | none => simp [hr] at h
      | some pr =>
        obtain ⟨cont2, rest2⟩ := pr
        simp only [hr, Option.some.injEq, Prod.mk.injEq] at h
        obtain ⟨-, h2⟩ := h
        subst h2
        have := ih hr
        simp only [List.length_cons]
        omega

theorem dropToken_le (l : Str) : (dropToken l).length ≤ l.length := by
  induction l with
  | nil => simp [dropToken]
  | cons c r ih =>
    simp only [dropToken]
    split_ifs
    · exact Nat.le_succ_of_le ih
    · simp

theorem matchUnquoted_len {l : Str} {m : MatchRes} (h : matchUnquoted l = some m) :
    m.rest.length < l.length := by
  cases l with
  | nil => simp [matchUnquoted, scanToken] at h
  | cons a r =>
    simp only [matchUnquoted] at h
    split_ifs at h with he
    simp only [Option.some.injEq] at h
    subst h
    simp only [scanToken] at he
    by_cases ha : nonDelim a
    · simp only [dropToken, if_pos ha, List.length_cons]
      exact Nat.lt_succ_of_le (dropToken_le r)
    · rw [if_neg ha] at he
      simp at he

theorem matchValue_len {l : Str} {m : MatchRes} (h : matchValue l = some m) :
    m.rest.length < l.length := by
  cases l with
  | nil => simp [matchValue] at h
  | cons a r =>
    simp only [matchValue] at h
    split_ifs at h with ha
    · cases hq : scanQuoted r with
      | none => simp only [hq] at h; exact matchUnquoted_len h
      | some pr =>
        obtain ⟨cont, rest⟩ := pr
        simp only [hq] at h
        split_ifs at h with hc
        · exact matchUnquoted_len h
        · simp only [Option.some.injEq] at h
          subst h
          have := scanQuoted_len hq
          simp only [List.length_cons]
          omega
    · exact matchUnquoted_len h

theorem matchAfterName_len {l : Str} {m : MatchRes} (h : matchAfterName l = some m) :
    m.rest.length < l.length := by
  simp only [matchAfterName] at h
  split_ifs at h with ha ha2
  · have h1 := matchValue_len h
    have h2 : (l.drop 2).length ≤ l.length := by
      rw [List.length_drop]; exact Nat.sub_le _ _
    exact Nat.lt_of_lt_of_le h1 h2
  · have h1 := matchValue_len h
    have h2 : (l.drop 1).length ≤ l.length := by
      rw [List.length_drop]; exact Nat.sub_le _ _
    exact Nat.lt_of_lt_of_le h1 h2

theorem matchAt_len {l : Str} {m : MatchRes} (h : matchAt l = some m) :
    m.rest.length < l.length := by
  simp only [matchAt] at h
  split_ifs at h with hs
  have h1 : m.rest.length < (l.drop 8).length := matchAfterName_len h
  have h2 : (l.drop 8).length ≤ l.length := by
    rw [List.length_drop]; exact Nat.sub_le _ _
  exact Nat.lt_of_lt_of_le h1 h2

theorem findAllF_fuel : ∀ (n m : Nat) (l : Str), l.length ≤ n → l.length ≤ m →
    findAllF n l = findAllF m l := by
  intro n
  induction n using Nat.strong_induction_on with
  | _ n ih =>
    intro m l hn hm
    match l with
    | [] => cases n <;> cases m <;> simp [findAllF]
    | c :: cs =>
      simp only [List.length_cons] at hn hm
      match n, m with
      | n1 + 1, m1 + 1 =>
        simp only [findAllF]
        cases hma : matchAt (c :: cs) with
        | some mr =>
          have hlen : mr.rest.length < cs.length + 1 := matchAt_len hma
          simp only [hma]
          rw [ih n1 (Nat.lt_succ_self n1) m1 mr.rest (by omega) (by omega)]
        | none =>
          simp only [hma]
          rw [ih n1 (Nat.lt_succ_self n1) m1 cs (by omega) (by omega)]

theorem findAll_cons_none {c : Char} {cs : Str} (h : matchAt (c :: cs) = none) :
    findAll (c :: cs) = findAll cs := by
  simp only [findAll, List.length_cons, findAllF, h]

theorem findAll_cons_some {c : Char} {cs : Str} {m : MatchRes}
    (h : matchAt (c :: cs) = some m) :
    findAll (c :: cs) = (m.g1.getD [], m.g2.getD []) :: findAll m.rest := by
  have hlen : m.rest.length < cs.length + 1 := matchAt_len h
  simp only [findAll, List.length_cons, findAllF, h]
  rw [findAllF_fuel cs.length m.rest.length m.rest (by omega) (by omega)]

/-! Sanity checks that the embedded machine computes. -/

example :
    extractFilenameL ("attachment; filename=\"test.zip\"").data =
      some ("test.zip").data := by decide

example :
    extractFilenameL ("attachment; filename=\"plain.zip\"; filename*=UTF-8''f%20g.bin").data =
      some ("f g.bin").data := by decide

example :
    (startRun
      [⟨.fail, fun _ => .ok (some 100) none [50, 50] none, .fail⟩,
        ⟨.fail, fun _ => .netError [], .fail⟩]
      [] (mkTask [] ['f'] true [])).s.status = Status.completed := by decide

example :
    (startRun
      [⟨.fail, fun _ => .ok (some 100) none [50, 50] none, .fail⟩,
        ⟨.fail, fun _ => .netError [], .fail⟩]
      [] (mkTask [] ['f'] true [])).s.downloadedSize = 100 := by decide

example :
    fsGet (startRun
      [⟨.fail, fun _ => .ok (some 100) none [50, 50] none, .fail⟩,
        ⟨.fail, fun _ => .netError [], .fail⟩]
      [] (mkTask [] ['f'] true [])).fs ['f'] = some 100 := by decide

/-! ## Claim C7 — cancel() on pending and running tasks -/

/-- C7: calling `cancel()` on a task whose status is `pending` synchronously
transitions it to `canceled` and invokes the completion callbacks before
`cancel()` returns (the callback dispatch is part of `cancel`'s own returned
effect); calling `cancel()` on a `running` task only sets the cooperative
stop flag and does not itself change the status. -/
theorem c7_cancel_pending_running (s : TaskState) :
    (s.status = Status.pending →
      cancelTask s =
        ({ s with status := .canceled }, [Ev.statusSet .canceled, Ev.callbacks])) ∧
    (s.status = Status.running →
      cancelTask s = ({ s with stopRequested := true }, []) ∧
      (cancelTask s).1.status = s.status) := by
  constructor
  · intro h
    simp [cancelTask, h]
  · intro h
    simp [cancelTask, h]

/-- Witness for C7 at concrete pending and running tasks. -/
theorem c7_cancel_pending_running_witness :
    cancelTask (mkTask [] [] true []) =
      ({ mkTask [] [] true [] with status := .canceled },
        [Ev.statusSet .canceled, Ev.callbacks]) ∧
    cancelTask { mkTask [] [] true [] with status := .running } =
      ({ { mkTask [] [] true [] with status := .running } with stopRequested := true },
        []) := by
  exact ⟨(c7_cancel_pending_running (mkTask [] [] true [])).1 rfl,
    ((c7_cancel_pending_running { mkTask [] [] true [] with status := .running }).2 rfl).1⟩

/-! ## Claim C10 — cancel() on a terminal task is a no-op -/

/-- C10: calling `cancel()` on a task whose status is already terminal
(`completed`, `failed` or `canceled`) is a complete no-op: no field of the
task changes and no completion callback is invoked. -/
theorem c10_cancel_terminal_noop (s : TaskState) (h : s.status.isTerminal = true) :
    cancelTask s = (s, []) ∧ countCallbacks (cancelTask s).2 = 0 := by
  have h1 : s.status ≠ Status.running := fun hr => by
    rw [hr] at h; simp [Status.isTerminal] at h
  have h2 : s.status ≠ Status.pending := fun hr => by
    rw [hr] at h; simp [Status.isTerminal] at h
  rw [cancelTask, if_neg h1, if_neg h2]
  exact ⟨rfl, rfl⟩

/-- Witness for C10 at a concrete completed task. -/
theorem c10_cancel_terminal_noop_witness :
    Status.isTerminal { mkTask [] [] true [] with status := .completed }.status = true ∧
    cancelTask { mkTask [] [] true [] with status := .completed } =
      ({ mkTask [] [] true [] with status := .completed }, []) := by
  exact ⟨by decide,
    (c10_cancel_terminal_noop { mkTask [] [] true [] with status := .completed }
      (by decide)).1⟩

/-- C2 counterexample: with the thread exited, status still `running` and
on-disk size (100) equal to the known total (100), the code's `wait`
returns false and leaves the status `running`, whereas the claim's
reconciliation (formalized from the spec's words as `waitSpecModel`) would
mark the task `completed` and return true. -/
theorem c2_wait_counterexample :
    waitCode true (some 100) waitStuckState = (waitStuckState, false) ∧
    (waitCode true (some 100) waitStuckState).1.status = Status.running ∧
    waitSpecModel true (some 100) waitStuckState =
      ({ waitStuckState with status := .completed }, true) := by
  exact ⟨rfl, rfl, rfl⟩

/-- C2 (amended): `wait(timeout)` blocks until the worker thread exits or
the timeout elapses, and then returns true if and only if the task's status
is `completed`; it performs no reconciliation and never mutates the task,
regardless of what it could observe about the exited thread or the on-disk
file.  Stated over the final state of an arbitrary complete run. -/
theorem c2_wait_amended (te : Bool) (ds : Option Nat) (a1 a2 : Attempt)
    (u p : Str) (ur : Bool) (hs : Headers) (fs : Fs) :
    (waitCode te ds (startRun [a1, a2] fs (mkTask u p ur hs)).s).1 =
      (startRun [a1, a2] fs (mkTask u p ur hs)).s ∧
    ((waitCode te ds (startRun [a1, a2] fs (mkTask u p ur hs)).s).2 = true ↔
      (startRun [a1, a2] fs (mkTask u p ur hs)).s.status = Status.completed) := by
  exact ⟨rfl, by simp [waitCode]⟩

/-! ## Claim C1 — the concurrency bound

`DownloadEngine` submits `task.start` to its
`ThreadPoolExecutor(max_workers=concurrent_downloads)`, but `task.start`
(lines 162–172) spawns a dedicated `threading.Thread(target=self._download)`
and returns immediately, freeing the pool worker while the transfer keeps
running outside the pool.  The pool therefore never bounds how many tasks
are simultaneously `running`. -/

/-- C1 (code bug): with `concurrent_downloads = 1` and two submitted
downloads, the engine reaches a state where both tasks are simultaneously
in `running` status — the claimed bound (at most `limit` running) is
violated because each pooled `task.start` job hands the transfer to a fresh
unpooled thread and returns. -/
theorem c1_concurrency_violation :
    ∃ e : EngSt, EngReach engTwoSubmitted e ∧
      engTwoSubmitted.limit = 1 ∧ countRunning e.statuses = 2 := by
  refine ⟨⟨1, [.running, .running], [], [], [1, 0]⟩, ?_, rfl, by decide⟩
  have s1 : EngStep engTwoSubmitted ⟨1, [.pending, .pending], [1], [0], []⟩ :=
    EngStep.dispatch engTwoSubmitted 0 [1] rfl (by decide)
  have s2 : EngStep ⟨1, [.pending, .pending], [1], [0], []⟩
      ⟨1, [.running, .pending], [1], [], [0]⟩ :=
    EngStep.runStart ⟨1, [.pending, .pending], [1], [0], []⟩ 0 [] rfl (by decide)
  have s3 : EngStep ⟨1, [.running, .pending], [1], [], [0]⟩
      ⟨1, [.running, .pending], [], [1], [0]⟩ :=
    EngStep.dispatch ⟨1, [.running, .pending], [1], [], [0]⟩ 1 [] rfl (by decide)
  have s4 : EngStep ⟨1, [.running, .pending], [], [1], [0]⟩
      ⟨1, [.running, .running], [], [], [1, 0]⟩ :=
    EngStep.runStart ⟨1, [.running, .pending], [], [1], [0]⟩ 1 [] rfl (by decide)
  exact Relation.ReflTransGen.head s1 (Relation.ReflTransGen.head s2
    (Relation.ReflTransGen.head s3 (Relation.ReflTransGen.single s4)))

/-! ## Supporting lemmas about the filesystem and the chunk loop -/

theorem fsGet_fsRemove (fs : Fs) (p : Str) : fsGet (fsRemove fs p) p = none := by
  induction fs with
  | nil => rfl
  | cons kv rest ih =>
    obtain ⟨q, m⟩ := kv
    simp only [fsRemove]
    split_ifs with h
    · exact ih
    · simp only [fsGet, if_neg h]
      exact ih

/-- With the stop event never observed, the chunk loop consumes all chunks,
adds their total size to `downloaded_size`, and is not cancelled. -/
theorem streamChunks_noStop (path : Str) (chunks : List Nat) :
    ∀ (i : Nat) (fs : Fs) (s : TaskState),
      (streamChunks none path chunks i fs s).stopped = false ∧
      (streamChunks none path chunks i fs s).s =
        { s with downloadedSize := s.downloadedSize + chunks.sum } := by
  induction chunks with
  | nil =>
    intro i fs s
    refine ⟨rfl, ?_⟩
    simp [streamChunks]
  | cons c rest ih =>
    intro i fs s
    simp only [streamChunks, stopObserved, Bool.false_eq_true, if_false]
    by_cases hc : c = 0
    · rw [if_pos hc]
      obtain ⟨ha, hb⟩ := ih (i + 1) fs s
      refine ⟨ha, ?_⟩
      rw [hb]
      simp [hc, List.sum_cons]
    · rw [if_neg hc]
      obtain ⟨ha, hb⟩ := ih (i + 1) (fsSet fs path ((fsGet fs path).getD 0 + c))
        { s with downloadedSize := s.downloadedSize + c }
      refine ⟨ha, ?_⟩
      rw [hb]
      simp [List.sum_cons]
      omega

/-- Every event the chunk loop logs is a size update, the cancellation
transition, or a callback dispatch — never an HTTP request. -/
theorem streamChunks_log_shape (stopAt : Option Nat) (path : Str) (chunks : List Nat) :
    ∀ (i : Nat) (fs : Fs) (s : TaskState) (ev : Ev),
      ev ∈ (streamChunks stopAt path chunks i fs s).log →
      (∃ t d tot, ev = Ev.size t d tot) ∨ ev = Ev.statusSet Status.canceled ∨
        ev = Ev.callbacks := by
  induction chunks with
  | nil => intro i fs s ev h; simp [streamChunks] at h
  | cons c rest ih =>
    intro i fs s ev h
    simp only [streamChunks] at h
    split_ifs at h with h1 h2
    · simp at h
      rcases h with rfl | rfl
      · right; left; rfl
      · right; right; rfl
    · exact ih (i + 1) fs s ev h
    · simp only [List.mem_cons] at h
      rcases h with rfl | hm
      · exact Or.inl ⟨_, _, _, rfl⟩
      · exact ih _ _ _ ev hm

/-- C4 counterexample: a task with range-resume disabled
(`use_range=False`) whose local file already has exactly the known remote
total size (100 bytes) does NOT skip the network GET: the run issues one
GET request and re-transfers the body, because the size check sits inside
`if self.use_range and os.path.exists(...)`.  The claim, stated over every
task, predicts zero GET requests here. -/
theorem c4_skip_counterexample :
    fsGet [(['f'], 100)] (mkTask [] ['f'] false []).filePath = some 100 ∧
    c4Attempt.head = HeadOutcome.ok (some 100) none ∧
    (getReqs (startRun [c4Attempt, c4Attempt] [(['f'], 100)]
        (mkTask [] ['f'] false [])).logs.flatten).length = 1 := by
  exact ⟨rfl, rfl, by decide⟩

/-- C4 (amended): for every task with range-resume enabled (`use_range`,
the default) whose local file exists at the resolved path with positive
size equal to the remote total announced by the HEAD request, running the
task skips the network GET entirely, ends `completed` with
`downloaded_size = total_size`, fires the completion callbacks exactly
once, and leaves the filesystem untouched. -/
theorem c4_skip_amended (a1 a2 : Attempt) (u p : Str) (hs : Headers) (fs : Fs) (t : Nat)
    (h1 : a1.head = HeadOutcome.ok (some t) none)
    (h2 : fsGet fs (mkTask u p true hs).filePath = some t)
    (h3 : 0 < t) :
    (startRun [a1, a2] fs (mkTask u p true hs)).s.status = Status.completed ∧
    (startRun [a1, a2] fs (mkTask u p true hs)).s.downloadedSize = t ∧
    (startRun [a1, a2] fs (mkTask u p true hs)).s.totalSize = some t ∧
    getReqs (startRun [a1, a2] fs (mkTask u p true hs)).logs.flatten = [] ∧
    countCallbacks (startRun [a1, a2] fs (mkTask u p true hs)).logs.flatten = 1 ∧
    (startRun [a1, a2] fs (mkTask u p true hs)).fs = fs := by
  have h2' : fsGet fs p = some t := h2
  have key : startRun [a1, a2] fs (mkTask u p true hs) =
      ⟨fs,
        { mkTask u p true hs with
          status := .completed
          totalSize := some t
          downloadedSize := t },
        [[Ev.statusSet .running],
          [Ev.headReq hs, Ev.size .headTotal 0 (some t),
            Ev.size .skipExisting t (some t), Ev.statusSet .completed,
            Ev.callbacks]]⟩ := by
    simp only [startRun, mkTask, runDownload, runAttempt, phaseHead, headRename, h1,
      phaseResume, phaseGetTotal, h2', h3, if_pos, if_true, reduceIte]
    simp [h2', h3]
  refine ⟨?_, ?_, ?_, ?_, ?_, ?_⟩ <;> rw [key] <;> rfl

/-- Witness for amended C4 at a concrete world. -/
theorem c4_skip_amended_witness :
    c4WitnessAttempt.head = HeadOutcome.ok (some 100) none ∧
    fsGet [(['f'], 100)] (mkTask [] ['f'] true []).filePath = some 100 ∧
    0 < 100 ∧
    (startRun [c4WitnessAttempt, c4WitnessAttempt] [(['f'], 100)]
      (mkTask [] ['f'] true [])).s.status = Status.completed := by
  refine ⟨rfl, rfl, by decide, ?_⟩
  exact (c4_skip_amended c4WitnessAttempt c4WitnessAttempt [] ['f'] [] [(['f'], 100)]
    100 rfl rfl (by decide)).1

/-! ## Claim C3 — 416 (Range Not Satisfiable) recovery

Scenario: range-resume enabled, a nonempty local file of `e` bytes smaller
than any total the HEAD announced, so the GET carries `Range: bytes=e-`,
and the server answers 416.  The three conjuncts cover: (a) the recovery
HEAD finds local ≥ remote — completed without re-downloading; (b) the
recovery check fails and the single range-less retry hits a second 416 —
failed, local file deleted; (c) the recovery check fails and the range-less
retry succeeds — completed. -/

/-- C3: when a `Range` request was sent and the server answers 416, the
task re-verifies with a fresh HEAD: if the local size is at least the
remote size it completes without re-downloading (exactly one GET was ever
issued); otherwise, on the first occurrence only, it deletes the local
file, disables range-resume (the retry's GET carries no Range offset),
resets `downloaded_size` and `total_size`, and retries the whole transfer
once from scratch — a second 416 makes the task `failed`, while a
successful range-less restart makes it `completed`. -/
theorem c3_416_recovery (a1 a2 : Attempt) (u p : Str) (hs : Headers) (fs : Fs)
    (e : Nat) (clh : Option Nat)
    (h1 : a1.head = HeadOutcome.ok clh none)
    (hcl : clh = none ∨ ∃ t, clh = some t ∧ e < t)
    (h2 : fsGet fs (mkTask u p true hs).filePath = some e)
    (h3 : 0 < e)
    (h4 : a1.get (some e) = GetOutcome.httpError 416) :
    (∀ r d, a1.recoveryHead = HeadOutcome.ok (some r) d → r ≤ e →
      (startRun [a1, a2] fs (mkTask u p true hs)).s.status = Status.completed ∧
      (startRun [a1, a2] fs (mkTask u p true hs)).s.downloadedSize = e ∧
      (startRun [a1, a2] fs (mkTask u p true hs)).s.totalSize = some r ∧
      getOffsets (startRun [a1, a2] fs (mkTask u p true hs)) = [some e] ∧
      (startRun [a1, a2] fs (mkTask u p true hs)).fs = fs) ∧
    ((a1.recoveryHead = HeadOutcome.fail ∨
        (∃ d, a1.recoveryHead = HeadOutcome.ok none d) ∨
        (∃ r d, a1.recoveryHead = HeadOutcome.ok (some r) d ∧ e < r)) →
      a2.head = HeadOutcome.fail → a2.get none = GetOutcome.httpError 416 →
      (startRun [a1, a2] fs (mkTask u p true hs)).s.status = Status.failed ∧
      fsGet (startRun [a1, a2] fs (mkTask u p true hs)).fs
        (mkTask u p true hs).filePath = none ∧
      getOffsets (startRun [a1, a2] fs (mkTask u p true hs)) = [some e, none] ∧
      (startRun [a1, a2] fs (mkTask u p true hs)).logs.length = 3) ∧
    ((a1.recoveryHead = HeadOutcome.fail ∨
        (∃ d, a1.recoveryHead = HeadOutcome.ok none d) ∨
        (∃ r d, a1.recoveryHead = HeadOutcome.ok (some r) d ∧ e < r)) →
      a2.head = HeadOutcome.fail →
      ∀ n chunks, a2.get none = GetOutcome.ok (some n) none chunks none →
      (startRun [a1, a2] fs (mkTask u p true hs)).s.status = Status.completed ∧
      (startRun [a1, a2] fs (mkTask u p true hs)).s.downloadedSize = chunks.sum ∧
      (startRun [a1, a2] fs (mkTask u p true hs)).s.totalSize = some n ∧
      getOffsets (startRun [a1, a2] fs (mkTask u p true hs)) =
        [some e, none]) := by
  have h2' : fsGet fs p = some e := h2
  refine ⟨?_, ?_, ?_⟩
  · intro r d hrec hre
    have hro : recoveryOk a1.recoveryHead e = some r := by
      rw [hrec]; simp [recoveryOk, hre]
    rcases hcl with hcl | ⟨t, hcl, hlt⟩ <;> subst hcl
    · simp [startRun, runDownload, runAttempt, mkTask, phaseHead, headRename, h1,
        phaseResume, h2', h3, h4, hro, getOffsets, getReqs, requestHeaders]
    · simp [startRun, runDownload, runAttempt, mkTask, phaseHead, headRename, h1,
        phaseResume, h2', h3, h4, hro, hlt, Nat.ne_of_lt hlt,
        getOffsets, getReqs, requestHeaders]
  · intro hB hh2 hg2
    have hfsr : fsGet (fsRemove fs p) p = none := fsGet_fsRemove fs p
    have hro : recoveryOk a1.recoveryHead e = none := by
      rcases hB with hrec | ⟨d, hrec⟩ | ⟨r, d, hrec, hlt2⟩ <;>
        rw [hrec] <;> simp [recoveryOk] <;> omega
    rcases hcl with hcl | ⟨t, hcl, hlt⟩ <;> subst hcl
    · simp [startRun, runDownload, runAttempt, mkTask, phaseHead, headRename, h1,
        phaseResume, h2', h3, h4, hro, hh2, hg2, hfsr, restart416, failTask,
        getOffsets, getReqs, requestHeaders]
    · simp [startRun, runDownload, runAttempt, mkTask, phaseHead, headRename, h1,
        phaseResume, h2', h3, h4, hro, hh2, hg2, hfsr, restart416, failTask,
        hlt, Nat.ne_of_lt hlt, getOffsets, getReqs, requestHeaders]
  · intro hB hh2 n chunks hg2
    have hfsr : fsGet (fsRemove fs p) p = none := fsGet_fsRemove fs p
    have hro : recoveryOk a1.recoveryHead e = none := by
      rcases hB with hrec | ⟨d, hrec⟩ | ⟨r, d, hrec, hlt2⟩ <;>
        rw [hrec] <;> simp [recoveryOk] <;> omega
    rcases hcl with hcl | ⟨t, hcl, hlt⟩ <;> subst hcl
    · simp [startRun, runDownload, runAttempt, mkTask, phaseHead, headRename, h1,
        phaseResume, phaseGetTotal, getRename, openFile, finishOk,
        streamChunks_noStop, h2', h3, h4, hro, hh2, hg2, hfsr, restart416,
        failTask, getOffsets, getReqs, requestHeaders]
      intro a ha
      rcases streamChunks_log_shape none p chunks 0 _ _ a ha with
        ⟨t2, d2, tot2, rfl⟩ | rfl | rfl <;> rfl
    · simp [startRun, runDownload, runAttempt, mkTask, phaseHead, headRename, h1,
        phaseResume, phaseGetTotal, getRename, openFile, finishOk,
        streamChunks_noStop, h2', h3, h4, hro, hh2, hg2, hfsr, restart416,
        failTask, hlt, Nat.ne_of_lt hlt, getOffsets, getReqs, requestHeaders]
      intro a ha
      rcases streamChunks_log_shape none p chunks 0 _ _ a ha with
        ⟨t2, d2, tot2, rfl⟩ | rfl | rfl <;> rfl

/-- Witness for C3 at a concrete world (the already-complete branch). -/
theorem c3_416_recovery_witness :
    (0 : Nat) < 1200 ∧ (1000 : Nat) ≤ 1200 ∧
    (startRun [c3WitnessA1, c3WitnessA2] [(['f'], 1200)]
      (mkTask [] ['f'] true [])).s.status = Status.completed := by
  refine ⟨by decide, by decide, ?_⟩
  exact ((c3_416_recovery c3WitnessA1 c3WitnessA2 [] ['f'] [] [(['f'], 1200)]
    1200 none rfl (Or.inl rfl) rfl (by decide) rfl).1 1000 none rfl (by decide)).1

/-! ## Per-phase facts feeding the run-level invariant theorems -/

theorem headRename_state (disp : Option Str) (s : TaskState) :
    (headRename disp s).status = s.status ∧
    (headRename disp s).downloadedSize = s.downloadedSize ∧
    (headRename disp s).headers = s.headers ∧
    (headRename disp s).retryCount = s.retryCount ∧
    (headRename disp s).totalSize = s.totalSize ∧
    (headRename disp s).useRange = s.useRange := by
  cases disp with
  | none => simp [headRename]
  | some d =>
    cases hx : extractFilenameL d <;> simp [headRename, hx] <;> split_ifs <;> simp

theorem phaseHead_state (h : HeadOutcome) (s : TaskState) :
    (phaseHead h s).1.status = s.status ∧
    (phaseHead h s).1.downloadedSize = s.downloadedSize ∧
    (phaseHead h s).1.headers = s.headers ∧
    (phaseHead h s).1.retryCount = s.retryCount ∧
    (phaseHead h s).1.useRange = s.useRange := by
  cases h with
  | fail => simp [phaseHead]
  | ok cl disp =>
    obtain ⟨e1, e2, e3, e4, e5, e6⟩ := headRename_state disp s
    cases cl with
    | none => simp [phaseHead, e1, e2, e3, e4, e6]
    | some n =>
      simp only [phaseHead]
      split_ifs with hc <;> simp [e1, e2, e3, e4, e6]

theorem phaseHead_log (h : HeadOutcome) (s : TaskState) :
    statusEvents (phaseHead h s).2 = [] ∧
    countCallbacks (phaseHead h s).2 = 0 ∧
    getReqs (phaseHead h s).2 = [] ∧
    headReqs (phaseHead h s).2 = [s.headers] := by
  cases h with
  | fail => simp [phaseHead, statusEvents, countCallbacks, getReqs, headReqs]
  | ok cl disp =>
    cases cl with
    | none => simp [phaseHead, statusEvents, countCallbacks, getReqs, headReqs]
    | some n =>
      simp only [phaseHead]
      split_ifs with hc <;> simp [statusEvents, countCallbacks, getReqs, headReqs]

/-- The total recorded by the HEAD phase: unchanged (no size event), or
freshly set to the announced content length, logging one size event. -/
theorem phaseHead_total (h : HeadOutcome) (s : TaskState) :
    ((phaseHead h s).1.totalSize = s.totalSize ∧ sizeEntries (phaseHead h s).2 = []) ∨
    (∃ n d2, h = HeadOutcome.ok (some n) d2 ∧
      (phaseHead h s).1.totalSize = some n ∧
      sizeEntries (phaseHead h s).2 = [(SizeTag.headTotal, s.downloadedSize, some n)]) := by
  cases h with
  | fail => left; simp [phaseHead, sizeEntries]
  | ok cl disp =>
    obtain ⟨e1, e2, e3, e4, e5, e6⟩ := headRename_state disp s
    cases cl with
    | none => left; simp [phaseHead, e5, sizeEntries]
    | some n =>
      simp only [phaseHead]
      split_ifs with hc
      · right
        exact ⟨n, disp, rfl, by simp, by simp [e2, sizeEntries]⟩
      · left
        exact ⟨by simp [e5], by simp [sizeEntries]⟩

theorem getRename_state (disp : Option Str) (mode : FMode) (s : TaskState) :
    (getRename disp mode s).status = s.status ∧
    (getRename disp mode s).downloadedSize = s.downloadedSize ∧
    (getRename disp mode s).headers = s.headers ∧
    (getRename disp mode s).retryCount = s.retryCount ∧
    (getRename disp mode s).totalSize = s.totalSize ∧
    (getRename disp mode s).useRange = s.useRange := by
  cases disp with
  | none => simp [getRename]
  | some d =>
    cases hx : extractFilenameL d <;> simp [getRename, hx] <;> split_ifs <;> simp

theorem phaseGetTotal_state (cl : Option Nat) (mode : FMode) (s : TaskState) :
    (phaseGetTotal cl mode s).1.status = s.status ∧
    (phaseGetTotal cl mode s).1.downloadedSize = s.downloadedSize ∧
    (phaseGetTotal cl mode s).1.headers = s.headers ∧
    (phaseGetTotal cl mode s).1.retryCount = s.retryCount ∧
    (phaseGetTotal cl mode s).1.filePath = s.filePath ∧
    statusEvents (phaseGetTotal cl mode s).2 = [] ∧
    countCallbacks (phaseGetTotal cl mode s).2 = 0 ∧
    getReqs (phaseGetTotal cl mode s).2 = [] ∧
    headReqs (phaseGetTotal cl mode s).2 = [] := by
  cases cl with
  | none => simp [phaseGetTotal, statusEvents, countCallbacks, getReqs, headReqs]
  | some n =>
    cases mode <;> cases ht : s.totalSize <;>
      simp [phaseGetTotal, ht, statusEvents, countCallbacks, getReqs, headReqs]

/-- How the GET phase sets the total: untouched (with no size event), or
set from `None` to the content length (plus the resume offset in append
mode), logging one matching size event. -/
theorem phaseGetTotal_total (cl : Option Nat) (mode : FMode) (s : TaskState) :
    ((phaseGetTotal cl mode s).1.totalSize = s.totalSize ∧
      sizeEntries (phaseGetTotal cl mode s).2 = []) ∨
    (s.totalSize = none ∧ ∃ n, cl = some n ∧
      (phaseGetTotal cl mode s).1.totalSize =
        some (n + (match mode with | FMode.ab => s.downloadedSize | FMode.wb => 0)) ∧
      sizeEntries (phaseGetTotal cl mode s).2 =
        [(SizeTag.getTotal, s.downloadedSize,
          some (n + (match mode with | FMode.ab => s.downloadedSize | FMode.wb => 0)))]) := by
  cases cl with
  | none => left; simp [phaseGetTotal, sizeEntries]
  | some n =>
    cases mode <;> cases ht : s.totalSize
    · right
      exact ⟨rfl, n, rfl, by simp [phaseGetTotal, ht], by simp [phaseGetTotal, ht, sizeEntries]⟩
    · left; simp [phaseGetTotal, ht, sizeEntries]
    · right
      exact ⟨rfl, n, rfl, by simp [phaseGetTotal, ht], by simp [phaseGetTotal, ht, sizeEntries]⟩
    · left; simp [phaseGetTotal, ht, sizeEntries]

/-- Facts about the early-return (already complete) branch of the resume
decision. -/
theorem phaseResume_skip_facts {fs fs2 : Fs} {s s2 : TaskState} {ev : List Ev}
    (h : phaseResume fs s = ResumeOut.skip fs2 s2 ev) :
    fs2 = fs ∧ s2.status = Status.completed ∧ s2.headers = s.headers ∧
    s2.retryCount = s.retryCount ∧ s2.filePath = s.filePath ∧
    statusEvents ev = [Status.completed] ∧ countCallbacks ev = 1 ∧
    getReqs ev = [] ∧ headReqs ev = [] ∧
    (∃ t, s.totalSize = some t ∧ s2.totalSize = some t ∧ s2.downloadedSize = t) ∧
    sizeEntries ev = [(SizeTag.skipExisting, s2.downloadedSize, s2.totalSize)] := by
  by_cases h1 : s.useRange = true
  · rw [phaseResume, if_pos h1] at h
    cases hf : fsGet fs s.filePath with
    | none =>
      simp only [hf] at h
      exact absurd h (by simp)
    | some existing =>
      simp only [hf] at h
      by_cases h2 : 0 < existing
      · rw [if_pos h2] at h
        cases ht : s.totalSize with
        | none =>
          simp only [ht] at h
          exact absurd h (by simp)
        | some t =>
          simp only [ht] at h
          by_cases h3 : existing = t
          · rw [if_pos h3] at h
            injection h with ha hb hc
            subst ha
            subst hb
            subst hc
            subst h3
            refine ⟨rfl, rfl, rfl, rfl, rfl, rfl, rfl, rfl, rfl,
              ⟨existing, rfl, rfl, rfl⟩, ?_⟩
            simp [sizeEntries]
          · rw [if_neg h3] at h
            by_cases h4 : existing < t
            · rw [if_pos h4] at h
              exact absurd h (by simp)
            · rw [if_neg h4] at h
              exact absurd h (by simp)
      · rw [if_neg h2] at h
        exact absurd h (by simp)
  · rw [phaseResume, if_neg h1] at h
    exact absurd h (by simp)

/-- Facts about the GET-issuing branch of the resume decision. -/
theorem phaseResume_go_facts {fs fs2 : Fs} {s s2 : TaskState} {ev : List Ev}
    {mode : FMode} {off : Option Nat}
    (h : phaseResume fs s = ResumeOut.go fs2 s2 ev mode off) :
    s2.status = s.status ∧ s2.headers = s.headers ∧ s2.retryCount = s.retryCount ∧
    s2.useRange = s.useRange ∧ s2.filePath = s.filePath ∧ s2.totalSize = s.totalSize ∧
    statusEvents ev = [] ∧ countCallbacks ev = 0 ∧
    getReqs ev = [] ∧ headReqs ev = [] ∧
    (mode = FMode.wb → off = none ∧ s2.downloadedSize = 0) ∧
    (mode = FMode.ab → off = some s2.downloadedSize ∧ fs2 = fs ∧
      fsGet fs s.filePath = some s2.downloadedSize ∧ 0 < s2.downloadedSize ∧
      (s.totalSize = none ∨ ∃ t, s.totalSize = some t ∧ s2.downloadedSize < t)) ∧
    (∃ tg, sizeEntries ev = [(tg, s2.downloadedSize, s2.totalSize)] ∧
      tg ≠ SizeTag.retryReset ∧ tg ≠ SizeTag.recovery416) := by
  by_cases h1 : s.useRange = true
  · rw [phaseResume, if_pos h1] at h
    cases hf : fsGet fs s.filePath with
    | none =>
      simp only [hf] at h
      injection h with ha hb hc hd he
      subst ha
      subst hb
      subst hc
      subst hd
      subst he
      refine ⟨rfl, rfl, rfl, rfl, rfl, rfl, rfl, rfl, rfl, rfl, ?_, ?_, ?_⟩
      · intro hm
        exact ⟨rfl, rfl⟩
      · intro hm
        simp at hm
      · exact ⟨SizeTag.zeroReset, by simp [sizeEntries], by simp, by simp⟩
    | some existing =>
      simp only [hf] at h
      by_cases h2 : 0 < existing
      · rw [if_pos h2] at h
        cases ht : s.totalSize with
        | none =>
          simp only [ht] at h
          injection h with ha hb hc hd he
          subst ha
          subst hb
          subst hc
          subst hd
          subst he
          refine ⟨rfl, rfl, rfl, rfl, rfl, rfl, rfl, rfl, rfl, rfl, ?_, ?_, ?_⟩
          · intro hm
            simp at hm
          · intro hm
            exact ⟨rfl, rfl, rfl, h2, Or.inl rfl⟩
          · exact ⟨SizeTag.resumeSet, by simp [sizeEntries], by simp, by simp⟩
        | some t =>
          simp only [ht] at h
          by_cases h3 : existing = t
          · rw [if_pos h3] at h
            exact absurd h (by simp)
          · rw [if_neg h3] at h
            by_cases h4 : existing < t
            · rw [if_pos h4] at h
              injection h with ha hb hc hd he
              subst ha
              subst hb
              subst hc
              subst hd
              subst he
              refine ⟨rfl, rfl, rfl, rfl, rfl, rfl, rfl, rfl, rfl, rfl, ?_, ?_, ?_⟩
              · intro hm
                simp at hm
              · intro hm
                exact ⟨rfl, rfl, rfl, h2, Or.inr ⟨t, rfl, h4⟩⟩
              · exact ⟨SizeTag.resumeSet, by simp [sizeEntries], by simp, by simp⟩
            · rw [if_neg h4] at h
              injection h with ha hb hc hd he
              subst ha
              subst hb
              subst hc
              subst hd
              subst he
              refine ⟨rfl, rfl, rfl, rfl, rfl, rfl, rfl, rfl, rfl, rfl, ?_, ?_, ?_⟩
              · intro hm
                exact ⟨rfl, rfl⟩
              · intro hm
                simp at hm
              · exact ⟨SizeTag.corruptReset, by simp [sizeEntries], by simp, by simp⟩
      · rw [if_neg h2] at h
        injection h with ha hb hc hd he
        subst ha
        subst hb
        subst hc
        subst hd
        subst he
        refine ⟨rfl, rfl, rfl, rfl, rfl, rfl, rfl, rfl, rfl, rfl, ?_, ?_, ?_⟩
        · intro hm
          exact ⟨rfl, rfl⟩
        · intro hm
          simp at hm
        · exact ⟨SizeTag.zeroReset, by simp [sizeEntries], by simp, by simp⟩
  · rw [phaseResume, if_neg h1] at h
    injection h with ha hb hc hd he
    subst ha
    subst hb
    subst hc
    subst hd
    subst he
    refine ⟨rfl, rfl, rfl, rfl, rfl, rfl, rfl, rfl, rfl, rfl, ?_, ?_, ?_⟩
    · intro hm
      exact ⟨rfl, rfl⟩
    · intro hm
      simp at hm
    · exact ⟨SizeTag.zeroReset, by simp [sizeEntries], by simp, by simp⟩

theorem failTask_facts (m : Str) (s : TaskState) (hst : s.status = Status.running) :
    (failTask m s).1.status = Status.failed ∧
    (failTask m s).1.headers = s.headers ∧
    (failTask m s).1.downloadedSize = s.downloadedSize ∧
    (failTask m s).1.totalSize = s.totalSize ∧
    statusEvents (failTask m s).2 = [Status.failed] ∧
    countCallbacks (failTask m s).2 = 1 ∧
    getReqs (failTask m s).2 = [] ∧
    headReqs (failTask m s).2 = [] ∧
    sizeEntries (failTask m s).2 = [] := by
  simp [failTask, hst, statusEvents, countCallbacks, getReqs, headReqs, sizeEntries]

theorem finishOk_facts (s : TaskState) (hst : s.status = Status.running) :
    (finishOk s).1.status = Status.completed ∧
    (finishOk s).1.headers = s.headers ∧
    (finishOk s).1.downloadedSize = s.downloadedSize ∧
    (finishOk s).1.totalSize = s.totalSize ∧
    statusEvents (finishOk s).2 = [Status.completed] ∧
    countCallbacks (finishOk s).2 = 1 ∧
    getReqs (finishOk s).2 = [] ∧
    headReqs (finishOk s).2 = [] ∧
    sizeEntries (finishOk s).2 = [] := by
  simp [finishOk, hst, statusEvents, countCallbacks, getReqs, headReqs, sizeEntries]

theorem streamChunks_facts (stopAt : Option Nat) (path : Str) (chunks : List Nat) :
    ∀ (i : Nat) (fs : Fs) (s : TaskState),
      (streamChunks stopAt path chunks i fs s).s.headers = s.headers ∧
      (streamChunks stopAt path chunks i fs s).s.retryCount = s.retryCount ∧
      (streamChunks stopAt path chunks i fs s).s.totalSize = s.totalSize ∧
      (streamChunks stopAt path chunks i fs s).s.useRange = s.useRange ∧
      (streamChunks stopAt path chunks i fs s).s.filePath = s.filePath ∧
      ((streamChunks stopAt path chunks i fs s).stopped = true →
        (streamChunks stopAt path chunks i fs s).s.status = Status.canceled ∧
        statusEvents (streamChunks stopAt path chunks i fs s).log = [Status.canceled] ∧
        countCallbacks (streamChunks stopAt path chunks i fs s).log = 1) ∧
      ((streamChunks stopAt path chunks i fs s).stopped = false →
        (streamChunks stopAt path chunks i fs s).s.status = s.status ∧
        statusEvents (streamChunks stopAt path chunks i fs s).log = [] ∧
        countCallbacks (streamChunks stopAt path chunks i fs s).log = 0) ∧
      getReqs (streamChunks stopAt path chunks i fs s).log = [] ∧
      headReqs (streamChunks stopAt path chunks i fs s).log = [] := by
  induction chunks with
  | nil =>
    intro i fs s
    simp [streamChunks, statusEvents, countCallbacks, getReqs, headReqs]
  | cons c rest ih =>
    intro i fs s
    by_cases hso : stopObserved stopAt i = true
    · simp [streamChunks, hso, statusEvents, countCallbacks, getReqs, headReqs]
    · by_cases hc : c = 0
      · have := ih (i + 1) fs s
        simpa [streamChunks, hso, hc] using this
      · obtain ⟨e1, e2, e3, e4, e5, e6, e7, e8, e9⟩ :=
          ih (i + 1) (fsSet fs path ((fsGet fs path).getD 0 + c))
            { s with downloadedSize := s.downloadedSize + c }
        simp only [streamChunks, hso, hc, Bool.false_eq_true, if_false, if_neg]
        refine ⟨by simpa using e1, by simpa using e2, by simpa using e3,
          by simpa using e4, by simpa using e5, ?_, ?_, ?_, ?_⟩
        · intro hstp
          obtain ⟨f1, f2, f3⟩ := e6 hstp
          exact ⟨f1, by simpa [statusEvents] using f2,
            by simpa [countCallbacks] using f3⟩
        · intro hstp
          obtain ⟨f1, f2, f3⟩ := e7 hstp
          exact ⟨by simpa using f1, by simpa [statusEvents] using f2,
            by simpa [countCallbacks] using f3⟩
        · simpa [getReqs] using e8
        · simpa [headReqs] using e9

theorem restart416_facts (fs : Fs) (s : TaskState) (ev : List Ev)
    (hst : s.status = Status.running) :
    (s.retryCount = 0 →
      restart416 fs s ev = AOut.retry (fsRemove fs s.filePath)
        { s with
          retryCount := 1
          useRange := false
          downloadedSize := 0
          totalSize := none }
        (ev ++ [Ev.size SizeTag.retryReset 0 none])) ∧
    (s.retryCount ≠ 0 →
      restart416 fs s ev = AOut.done fs
        { s with status := Status.failed, error := some (Nat.toDigits 10 416) }
        (ev ++ [Ev.statusSet Status.failed, Ev.callbacks])) := by
  constructor
  · intro h0
    simp [restart416, h0]
  · intro h0
    simp [restart416, h0, failTask, hst]

theorem statusEvents_append (xs ys : List Ev) :
    statusEvents (xs ++ ys) = statusEvents xs ++ statusEvents ys := by
  simp [statusEvents]

theorem countCallbacks_append (xs ys : List Ev) :
    countCallbacks (xs ++ ys) = countCallbacks xs + countCallbacks ys := by
  simp [countCallbacks, List.countP_append]

theorem getReqs_append (xs ys : List Ev) :
    getReqs (xs ++ ys) = getReqs xs ++ getReqs ys := by
  simp [getReqs]

theorem headReqs_append (xs ys : List Ev) :
    headReqs (xs ++ ys) = headReqs xs ++ headReqs ys := by
  simp [headReqs]

theorem sizeEntries_append (xs ys : List Ev) :
    sizeEntries (xs ++ ys) = sizeEntries xs ++ sizeEntries ys := by
  simp [sizeEntries]

@[simp] theorem statusEvents_nil : statusEvents [] = [] := rfl

@[simp] theorem statusEvents_cons_headReq (hs : Headers) (l : List Ev) :
    statusEvents (Ev.headReq hs :: l) = statusEvents l := by simp [statusEvents]

@[simp] theorem statusEvents_cons_getReq (hs : Headers) (o : Option Nat) (l : List Ev) :
    statusEvents (Ev.getReq hs o :: l) = statusEvents l := by simp [statusEvents]

@[simp] theorem statusEvents_cons_size (t : SizeTag) (d : Nat) (tot : Option Nat)
    (l : List Ev) : statusEvents (Ev.size t d tot :: l) = statusEvents l := by
  simp [statusEvents]

@[simp] theorem statusEvents_cons_statusSet (st : Status) (l : List Ev) :
    statusEvents (Ev.statusSet st :: l) = st :: statusEvents l := by simp [statusEvents]

@[simp] theorem statusEvents_cons_callbacks (l : List Ev) :
    statusEvents (Ev.callbacks :: l) = statusEvents l := by simp [statusEvents]

@[simp] theorem countCallbacks_nil : countCallbacks [] = 0 := rfl

@[simp] theorem countCallbacks_cons_headReq (hs : Headers) (l : List Ev) :
    countCallbacks (Ev.headReq hs :: l) = countCallbacks l := by simp [countCallbacks]

@[simp] theorem countCallbacks_cons_getReq (hs : Headers) (o : Option Nat) (l : List Ev) :
    countCallbacks (Ev.getReq hs o :: l) = countCallbacks l := by simp [countCallbacks]

@[simp] theorem countCallbacks_cons_size (t : SizeTag) (d : Nat) (tot : Option Nat)
    (l : List Ev) : countCallbacks (Ev.size t d tot :: l) = countCallbacks l := by
  simp [countCallbacks]

@[simp] theorem countCallbacks_cons_statusSet (st : Status) (l : List Ev) :
    countCallbacks (Ev.statusSet st :: l) = countCallbacks l := by simp [countCallbacks]

@[simp] theorem countCallbacks_cons_callbacks (l : List Ev) :
    countCallbacks (Ev.callbacks :: l) = countCallbacks l + 1 := by
  simp [countCallbacks, Nat.add_comm]

@[simp] theorem getReqs_nil : getReqs [] = [] := rfl

@[simp] theorem getReqs_cons_headReq (hs : Headers) (l : List Ev) :
    getReqs (Ev.headReq hs :: l) = getReqs l := by simp [getReqs]

@[simp] theorem getReqs_cons_getReq (hs : Headers) (o : Option Nat) (l : List Ev) :
    getReqs (Ev.getReq hs o :: l) = (hs, o) :: getReqs l := by simp [getReqs]

@[simp] theorem getReqs_cons_size (t : SizeTag) (d : Nat) (tot : Option Nat)
    (l : List Ev) : getReqs (Ev.size t d tot :: l) = getReqs l := by simp [getReqs]

@[simp] theorem getReqs_cons_statusSet (st : Status) (l : List Ev) :
    getReqs (Ev.statusSet st :: l) = getReqs l := by simp [getReqs]

@[simp] theorem getReqs_cons_callbacks (l : List Ev) :
    getReqs (Ev.callbacks :: l) = getReqs l := by simp [getReqs]

@[simp] theorem headReqs_nil : headReqs [] = [] := rfl

@[simp] theorem headReqs_cons_headReq (hs : Headers) (l : List Ev) :
    headReqs (Ev.headReq hs :: l) = hs :: headReqs l := by simp [headReqs]

@[simp] theorem headReqs_cons_getReq (hs : Headers) (o : Option Nat) (l : List Ev) :
    headReqs (Ev.getReq hs o :: l) = headReqs l := by simp [headReqs]

@[simp] theorem headReqs_cons_size (t : SizeTag) (d : Nat) (tot : Option Nat)
    (l : List Ev) : headReqs (Ev.size t d tot :: l) = headReqs l := by simp [headReqs]

@[simp] theorem headReqs_cons_statusSet (st : Status) (l : List Ev) :
    headReqs (Ev.statusSet st :: l) = headReqs l := by simp [headReqs]

@[simp] theorem headReqs_cons_callbacks (l : List Ev) :
    headReqs (Ev.callbacks :: l) = headReqs l := by simp [headReqs]

@[simp] theorem sizeEntries_nil : sizeEntries [] = [] := rfl

@[simp] theorem sizeEntries_cons_headReq (hs : Headers) (l : List Ev) :
    sizeEntries (Ev.headReq hs :: l) = sizeEntries l := by simp [sizeEntries]

@[simp] theorem sizeEntries_cons_getReq (hs : Headers) (o : Option Nat) (l : List Ev) :
    sizeEntries (Ev.getReq hs o :: l) = sizeEntries l := by simp [sizeEntries]

@[simp] theorem sizeEntries_cons_size (t : SizeTag) (d : Nat) (tot : Option Nat)
    (l : List Ev) :
    sizeEntries (Ev.size t d tot :: l) = (t, d, tot) :: sizeEntries l := by
  simp [sizeEntries]

@[simp] theorem sizeEntries_cons_statusSet (st : Status) (l : List Ev) :
    sizeEntries (Ev.statusSet st :: l) = sizeEntries l := by simp [sizeEntries]

@[simp] theorem sizeEntries_cons_callbacks (l : List Ev) :
    sizeEntries (Ev.callbacks :: l) = sizeEntries l := by simp [sizeEntries]

attribute [simp] statusEvents_append countCallbacks_append getReqs_append
  headReqs_append sizeEntries_append

/-- Shape of one `_download` pass from a `running` task: a finished pass
ends in a terminal status with exactly that one status transition and one
callback dispatch in its log; the 416 retry path leaves the task `running`,
logs no transition and no callback, sets `_retry_count` to 1 and resets
both sizes (and requires `_retry_count = 0` on entry); either way the
caller-held headers dict is untouched and every request carries either the
original dict (HEAD) or the per-attempt copy (GET). -/
theorem runAttempt_shape (a : Attempt) (fs : Fs) (s : TaskState)
    (hst : s.status = Status.running) :
    (∀ fs2 s2 log, runAttempt a fs s = AOut.done fs2 s2 log →
      s2.status.isTerminal = true ∧ statusEvents log = [s2.status] ∧
      countCallbacks log = 1 ∧ s2.headers = s.headers ∧
      (∀ pr ∈ getReqs log, pr.1 = requestHeaders s.headers pr.2) ∧
      (∀ hh ∈ headReqs log, hh = s.headers)) ∧
    (∀ fs2 s2 log, runAttempt a fs s = AOut.retry fs2 s2 log →
      s.retryCount = 0 ∧ s2.status = Status.running ∧ statusEvents log = [] ∧
      countCallbacks log = 0 ∧ s2.retryCount = 1 ∧ s2.downloadedSize = 0 ∧
      s2.totalSize = none ∧ s2.headers = s.headers ∧
      (∀ pr ∈ getReqs log, pr.1 = requestHeaders s.headers pr.2) ∧
      (∀ hh ∈ headReqs log, hh = s.headers)) := by
  obtain ⟨p1, p2, p3, p4, p5⟩ := phaseHead_state a.head s
  obtain ⟨q1, q2, q3, q4⟩ := phaseHead_log a.head s
  rw [runAttempt]
  generalize hgen : phaseHead a.head s = hd at *
  obtain ⟨sh, ev1⟩ := hd
  simp only at p1 p2 p3 p4 p5 q1 q2 q3 q4 ⊢
  have hshst : sh.status = Status.running := by rw [p1, hst]
  cases hr : phaseResume fs sh with
  | skip fs2a s2a ev2 =>
    obtain ⟨k1, k2, k3, k4, k5, k6, k7, k8, k9, -, -⟩ := phaseResume_skip_facts hr
    dsimp only
    constructor
    · intro fs2 s2 log hdone
      injection hdone with ha hb hc
      subst ha
      subst hb
      subst hc
      refine ⟨by simp [k2, Status.isTerminal], ?_, ?_, by rw [k3, p3], ?_, ?_⟩
      · simp [q1, k6, k2]
      · simp [q2, k7]
      · intro pr hpr
        simp [q3, k8] at hpr
      · intro hh hhh
        simp [q4, k9] at hhh
        exact hhh
    · intro fs2 s2 log hret
      exact absurd hret (by simp)
  | go fs2a s2a ev2 mode off =>
    obtain ⟨g1, g2, g3, g4, g5, g6, g7, g8, g9, g10, -, -, -⟩ :=
      phaseResume_go_facts hr
    dsimp only
    have hs2ast : s2a.status = Status.running := by rw [g1, hshst]
    have hs2ah : s2a.headers = s.headers := by rw [g2, p3]
    have hs2ar : s2a.retryCount = s.retryCount := by rw [g3, p4]
    cases hg : a.get off with
    | netError m =>
      obtain ⟨f1, f2, f3, f4, f5, f6, f7, f8, f9⟩ := failTask_facts m s2a hs2ast
      dsimp only
      constructor
      · intro fs2 s2 log hdone
        injection hdone with ha hb hc
        subst ha
        subst hb
        subst hc
        refine ⟨by simp [f1, Status.isTerminal], ?_, ?_, by rw [f2, hs2ah], ?_, ?_⟩
        · simp [q1, g7, f5, f1]
        · simp [q2, g8, f6]
        · intro pr hpr
          simp [q3, g9, f7, hs2ah] at hpr
          subst hpr
          rfl
        · intro hh hhh
          simp [q4, g10, f8, hs2ah] at hhh
          exact hhh
      · intro fs2 s2 log hret
        exact absurd hret (by simp)
    | httpError code =>
      dsimp only
      by_cases h416 : code = 416
      · rw [if_pos h416]
        cases hf : fsGet fs2a s2a.filePath with
        | some existing =>
          dsimp only
          cases hro : recoveryOk a.recoveryHead existing with
          | some r =>
            dsimp only
            constructor
            · intro fs2 s2 log hdone
              injection hdone with ha hb hc
              subst ha
              subst hb
              subst hc
              refine ⟨by simp [Status.isTerminal], ?_, ?_, by simp [hs2ah], ?_, ?_⟩
              · simp [q1, g7]
              · simp [q2, g8]
              · intro pr hpr
                simp [q3, g9, hs2ah] at hpr
                subst hpr
                rfl
              · intro hh hhh
                simp [q4, g10, hs2ah] at hhh
                exact hhh
            · intro fs2 s2 log hret
              exact absurd hret (by simp)
          | none =>
            dsimp only
            by_cases hrc : s2a.retryCount = 0
            · rw [(restart416_facts fs2a s2a _ hs2ast).1 hrc]
              constructor
              · intro fs2 s2 log hdone
                exact absurd hdone (by simp)
              · intro fs2 s2 log hret
                injection hret with ha hb hc
                subst ha
                subst hb
                subst hc
                refine ⟨by rw [← hs2ar, hrc], by simp [hs2ast], ?_, ?_, by simp,
                  by simp, by simp, by simp [hs2ah], ?_, ?_⟩
                · simp [q1, g7]
                · simp [q2, g8]
                · intro pr hpr
                  simp [q3, g9, hs2ah] at hpr
                  subst hpr
                  rfl
                · intro hh hhh
                  simp [q4, g10, hs2ah] at hhh
                  exact hhh
            · rw [(restart416_facts fs2a s2a _ hs2ast).2 hrc]
              constructor
              · intro fs2 s2 log hdone
                injection hdone with ha hb hc
                subst ha
                subst hb
                subst hc
                refine ⟨by simp [Status.isTerminal], ?_, ?_, by simp [hs2ah], ?_, ?_⟩
                · simp [q1, g7]
                · simp [q2, g8]
                · intro pr hpr
                  simp [q3, g9, hs2ah] at hpr
                  subst hpr
                  rfl
                · intro hh hhh
                  simp [q4, g10, hs2ah] at hhh
                  exact hhh
              · intro fs2 s2 log hret
                exact absurd hret (by simp)
        | none =>
          dsimp only
          by_cases hrc : s2a.retryCount = 0
          · rw [(restart416_facts fs2a s2a _ hs2ast).1 hrc]
            constructor
            · intro fs2 s2 log hdone
              exact absurd hdone (by simp)
            · intro fs2 s2 log hret
              injection hret with ha hb hc
              subst ha
              subst hb
              subst hc
              refine ⟨by rw [← hs2ar, hrc], by simp [hs2ast], ?_, ?_, by simp,
                by simp, by simp, by simp [hs2ah], ?_, ?_⟩
              · simp [q1, g7]
              · simp [q2, g8]
              · intro pr hpr
                simp [q3, g9, hs2ah] at hpr
                subst hpr
                rfl
              · intro hh hhh
                simp [q4, g10, hs2ah] at hhh
                exact hhh
          · rw [(restart416_facts fs2a s2a _ hs2ast).2 hrc]
            constructor
            · intro fs2 s2 log hdone
              injection hdone with ha hb hc
              subst ha
              subst hb
              subst hc
              refine ⟨by simp [Status.isTerminal], ?_, ?_, by simp [hs2ah], ?_, ?_⟩
              · simp [q1, g7]
              · simp [q2, g8]
              · intro pr hpr
                simp [q3, g9, hs2ah] at hpr
                subst hpr
                rfl
              · intro hh hhh
                simp [q4, g10, hs2ah] at hhh
                exact hhh
            · intro fs2 s2 log hret
              exact absurd hret (by simp)
      · rw [if_neg h416]
        obtain ⟨f1, f2, f3, f4, f5, f6, f7, f8, f9⟩ :=
          failTask_facts (Nat.toDigits 10 code) s2a hs2ast
        constructor
        · intro fs2 s2 log hdone
          injection hdone with ha hb hc
          subst ha
          subst hb
          subst hc
          refine ⟨by simp [f1, Status.isTerminal], ?_, ?_, by rw [f2, hs2ah], ?_, ?_⟩
          · simp [q1, g7, f5, f1]
          · simp [q2, g8, f6]
          · intro pr hpr
            simp [q3, g9, f7, hs2ah] at hpr
            subst hpr
            rfl
          · intro hh hhh
            simp [q4, g10, f8, hs2ah] at hhh
            exact hhh
        · intro fs2 s2 log hret
          exact absurd hret (by simp)
    | ok cl disp chunks stopAt =>
      dsimp only
      obtain ⟨r1, r2, r3, r4, r5, r6⟩ := getRename_state disp mode s2a
      obtain ⟨t1, t2, t3, t4, t5, t6, t7, t8, t9⟩ :=
        phaseGetTotal_state cl mode (getRename disp mode s2a)
      generalize hgt : phaseGetTotal cl mode (getRename disp mode s2a) = gt at *
      obtain ⟨s4, ev4⟩ := gt
      simp only at t1 t2 t3 t4 t5 t6 t7 t8 t9 ⊢
      have hs4st : s4.status = Status.running := by rw [t1, r1, hs2ast]
      have hs4h : s4.headers = s.headers := by rw [t3, r3, hs2ah]
      obtain ⟨w1, w2, w3, w4, w5, w6, w7, w8, w9⟩ :=
        streamChunks_facts stopAt s4.filePath chunks 0
          (openFile mode fs2a s4.filePath) s4
      generalize hstr : streamChunks stopAt s4.filePath chunks 0
          (openFile mode fs2a s4.filePath) s4 = st at *
      obtain ⟨stfs, sts, stlog, stb⟩ := st
      simp only at w1 w2 w3 w4 w5 w6 w7 w8 w9 ⊢
      cases stb with
      | true =>
        obtain ⟨c1, c2, c3⟩ := w6 rfl
        rw [if_pos rfl]
        constructor
        · intro fs2 s2 log hdone
          injection hdone with ha hb hc
          subst ha
          subst hb
          subst hc
          refine ⟨by simp [c1, Status.isTerminal], ?_, ?_, by rw [w1, hs4h], ?_, ?_⟩
          · simp [q1, g7, t6, c2, c1]
          · simp [q2, g8, t7, c3]
          · intro pr hpr
            simp [q3, g9, t8, w8, hs2ah] at hpr
            subst hpr
            rfl
          · intro hh hhh
            simp [q4, g10, t9, w9, hs2ah] at hhh
            exact hhh
        · intro fs2 s2 log hret
          exact absurd hret (by simp)
      | false =>
        obtain ⟨c1, c2, c3⟩ := w7 rfl
        have hstsst : sts.status = Status.running := by rw [c1, hs4st]
        obtain ⟨f1, f2, f3, f4, f5, f6, f7, f8, f9⟩ := finishOk_facts sts hstsst
        rw [if_neg (by simp)]
        constructor
        · intro fs2 s2 log hdone
          injection hdone with ha hb hc
          subst ha
          subst hb
          subst hc
          refine ⟨by simp [f1, Status.isTerminal], ?_, ?_,
            by rw [f2, w1, hs4h], ?_, ?_⟩
          · simp [q1, g7, t6, c2, f5, f1]
          · simp [q2, g8, t7, c3, f6]
          · intro pr hpr
            simp [q3, g9, t8, w8, f7, hs2ah] at hpr
            subst hpr
            rfl
          · intro hh hhh
            simp [q4, g10, t9, w9, f8, hs2ah] at hhh
            exact hhh
        · intro fs2 s2 log hret
          exact absurd hret (by simp)

theorem cancelTask_terminal {s : TaskState} (h : s.status.isTerminal = true) :
    cancelTask s = (s, []) := by
  have h1 : s.status ≠ Status.running := fun hr => by
    rw [hr] at h; simp [Status.isTerminal] at h
  have h2 : s.status ≠ Status.pending := fun hr => by
    rw [hr] at h; simp [Status.isTerminal] at h
  rw [cancelTask, if_neg h1, if_neg h2]

theorem startRun_nonpending {s : TaskState} (h : s.status ≠ Status.pending)
    (attempts : List Attempt) (fs : Fs) : startRun attempts fs s = ⟨fs, s, []⟩ := by
  rw [startRun, if_neg h]

theorem isTerminal_ne_pending {st : Status} (h : st.isTerminal = true) :
    st ≠ Status.pending := by
  cases st <;> simp_all [Status.isTerminal]

/-- Both scripted passes composed: any complete worker run from a
`running`, never-retried task ends terminal, logs exactly one terminal
transition and one callback dispatch, and leaves the caller's headers
untouched with every request derived from them. -/
theorem runDownload_two (a1 a2 : Attempt) (fs : Fs) (s : TaskState)
    (hst : s.status = Status.running) :
    Status.isTerminal (runDownload [a1, a2] fs s).s.status = true ∧
    statusEvents (runDownload [a1, a2] fs s).logs.flatten =
      [(runDownload [a1, a2] fs s).s.status] ∧
    countCallbacks (runDownload [a1, a2] fs s).logs.flatten = 1 ∧
    (runDownload [a1, a2] fs s).s.headers = s.headers ∧
    (∀ pr ∈ getReqs (runDownload [a1, a2] fs s).logs.flatten,
      pr.1 = requestHeaders s.headers pr.2) ∧
    (∀ hh ∈ headReqs (runDownload [a1, a2] fs s).logs.flatten, hh = s.headers) := by
  cases ho : runAttempt a1 fs s with
  | done fs2 s2 log =>
    obtain ⟨d1, d2, d3, d4, d5, d6⟩ := (runAttempt_shape a1 fs s hst).1 fs2 s2 log ho
    simp only [runDownload, ho]
    refine ⟨d1, by simp [d2], by simp [d3], d4, ?_, ?_⟩
    · intro pr hpr
      simp at hpr
      exact d5 pr hpr
    · intro hh hhh
      simp at hhh
      exact d6 hh hhh
  | retry fs2 s2 log =>
    obtain ⟨r0, r1, r2, r3, r4, r5, r6, r7, r8, r9⟩ :=
      (runAttempt_shape a1 fs s hst).2 fs2 s2 log ho
    simp only [runDownload, ho]
    cases ho2 : runAttempt a2 fs2 s2 with
    | done fs3 s3 log2 =>
      obtain ⟨d1, d2, d3, d4, d5, d6⟩ :=
        (runAttempt_shape a2 fs2 s2 r1).1 fs3 s3 log2 ho2
      simp only [ho2]
      refine ⟨d1, by simp [r2, d2], by simp [r3, d3], by rw [d4, r7], ?_, ?_⟩
      · intro pr hpr
        simp at hpr
        rcases hpr with hpr | hpr
        · exact r8 pr hpr
        · rw [d5 pr hpr, r7]
      · intro hh hhh
        simp at hhh
        rcases hhh with hhh | hhh
        · exact r9 hh hhh
        · rw [d6 hh hhh, r7]
    | retry fs3 s3 log2 =>
      have h0 := ((runAttempt_shape a2 fs2 s2 r1).2 fs3 s3 log2 ho2).1
      rw [r4] at h0
      exact absurd h0 (by simp)

/-! ## Claim C6 — terminal status is absorbing, callbacks fire exactly once -/

/-- C6: for every task and every scripted world, the run makes exactly the
transitions `running` followed by one terminal status — so once a terminal
value is reached the status never changes again (in particular `cancel()`
and a repeated `start()` on the finished task change nothing) — and the
registered completion callbacks are dispatched exactly once, whichever
terminal state is reached. -/
theorem c6_terminal_absorbing_callbacks_once (a1 a2 : Attempt) (u p : Str)
    (ur : Bool) (hs : Headers) (fs : Fs) :
    Status.isTerminal (startRun [a1, a2] fs (mkTask u p ur hs)).s.status = true ∧
    statusEvents (startRun [a1, a2] fs (mkTask u p ur hs)).logs.flatten =
      [Status.running, (startRun [a1, a2] fs (mkTask u p ur hs)).s.status] ∧
    countCallbacks (startRun [a1, a2] fs (mkTask u p ur hs)).logs.flatten = 1 ∧
    cancelTask (startRun [a1, a2] fs (mkTask u p ur hs)).s =
      ((startRun [a1, a2] fs (mkTask u p ur hs)).s, []) ∧
    (∀ attempts fs2,
      startRun attempts fs2 (startRun [a1, a2] fs (mkTask u p ur hs)).s =
        ⟨fs2, (startRun [a1, a2] fs (mkTask u p ur hs)).s, []⟩) := by
  obtain ⟨k1, k2, k3, k4, k5, k6⟩ :=
    runDownload_two a1 a2 fs { mkTask u p ur hs with status := Status.running } rfl
  have hkey : startRun [a1, a2] fs (mkTask u p ur hs) =
      ⟨(runDownload [a1, a2] fs { mkTask u p ur hs with status := Status.running }).fs,
        (runDownload [a1, a2] fs { mkTask u p ur hs with status := Status.running }).s,
        [Ev.statusSet Status.running] ::
          (runDownload [a1, a2] fs
            { mkTask u p ur hs with status := Status.running }).logs⟩ := by
    rw [startRun,
      if_pos (show (mkTask u p ur hs).status = Status.pending from rfl)]
  rw [hkey]
  refine ⟨k1, by simp [k2], by simp [k3], ?_, ?_⟩
  · exact cancelTask_terminal k1
  · intro attempts fs2
    exact startRun_nonpending (isTerminal_ne_pending k1) attempts fs2

/-! ## Claim C9 — the caller's headers dict is never mutated -/

/-- C9: across a whole run, retries included, the caller-supplied headers
dict held by the task is never mutated — it is identical after the run —
and every GET request is sent with a per-attempt copy of exactly the
original headers (plus, on a resume, the `Range` entry added only to that
copy), while every HEAD request carries the original headers unchanged. -/
theorem c9_headers_never_mutated (a1 a2 : Attempt) (u p : Str) (ur : Bool)
    (hs : Headers) (fs : Fs) :
    (startRun [a1, a2] fs (mkTask u p ur hs)).s.headers = hs ∧
    (∀ pr ∈ getReqs (startRun [a1, a2] fs (mkTask u p ur hs)).logs.flatten,
      pr.1 = requestHeaders hs pr.2) ∧
    (∀ hh ∈ headReqs (startRun [a1, a2] fs (mkTask u p ur hs)).logs.flatten,
      hh = hs) := by
  obtain ⟨k1, k2, k3, k4, k5, k6⟩ :=
    runDownload_two a1 a2 fs { mkTask u p ur hs with status := Status.running } rfl
  have hkey : startRun [a1, a2] fs (mkTask u p ur hs) =
      ⟨(runDownload [a1, a2] fs { mkTask u p ur hs with status := Status.running }).fs,
        (runDownload [a1, a2] fs { mkTask u p ur hs with status := Status.running }).s,
        [Ev.statusSet Status.running] ::
          (runDownload [a1, a2] fs
            { mkTask u p ur hs with status := Status.running }).logs⟩ := by
    rw [startRun,
      if_pos (show (mkTask u p ur hs).status = Status.pending from rfl)]
  rw [hkey]
  refine ⟨k4, ?_, ?_⟩
  · intro pr hpr
    simp at hpr
    exact k5 pr (by simpa using hpr)
  · intro hh hhh
    simp at hhh
    exact k6 hh (by simpa using hhh)

theorem monoFrom_append {xs ys : List (SizeTag × Nat × Option Nat)} :
    ∀ {d0 : Nat}, monoFrom d0 xs → monoFrom (lastD xs d0) ys →
      monoFrom d0 (xs ++ ys) := by
  induction xs with
  | nil => intro d0 hx hy; simpa [lastD] using hy
  | cons en rest ih =>
    intro d0 hx hy
    obtain ⟨t, d, o⟩ := en
    exact ⟨hx.1, ih hx.2 (by simpa [lastD] using hy)⟩

theorem lastD_append (xs ys : List (SizeTag × Nat × Option Nat)) :
    ∀ d0, lastD (xs ++ ys) d0 = lastD ys (lastD xs d0) := by
  induction xs with
  | nil => intro d0; simp [lastD]
  | cons en rest ih =>
    intro d0
    obtain ⟨t, d, o⟩ := en
    simp only [List.cons_append, lastD]
    exact ih d

theorem failTask_sizes (m : Str) (s : TaskState) :
    sizeEntries (failTask m s).2 = [] := by
  rw [failTask]
  split_ifs <;> rfl

theorem finishOk_sizes (s : TaskState) :
    sizeEntries (finishOk s).2 = [] := by
  rw [finishOk]
  split_ifs <;> rfl

/-- Size-trace facts of the chunk loop: provided the remaining body fits
under any already-known total, the `downloaded_size` column only grows and
every logged value stays under that total. -/
theorem streamChunks_sizes (stopAt : Option Nat) (path : Str) (chunks : List Nat) :
    ∀ (i : Nat) (fs : Fs) (s : TaskState),
      (∀ t, s.totalSize = some t → s.downloadedSize + chunks.sum ≤ t) →
      monoFrom s.downloadedSize
        (sizeEntries (streamChunks stopAt path chunks i fs s).log) ∧
      ∀ en ∈ sizeEntries (streamChunks stopAt path chunks i fs s).log, entryBound en := by
  induction chunks with
  | nil =>
    intro i fs s hb
    constructor
    · simp [streamChunks]
      exact trivial
    · intro en hen
      simp [streamChunks] at hen
  | cons c rest ih =>
    intro i fs s hb
    by_cases hso : stopObserved stopAt i = true
    · constructor
      · simp [streamChunks, hso]
        exact trivial
      · intro en hen
        simp [streamChunks, hso] at hen
    · by_cases hc : c = 0
      · have hb2 : ∀ t, s.totalSize = some t → s.downloadedSize + rest.sum ≤ t := by
          intro t ht
          have := hb t ht
          simp only [List.sum_cons, hc] at this
          omega
        have := ih (i + 1) fs s hb2
        simpa [streamChunks, hso, hc] using this
      · have hb2 : ∀ t,
            ({ s with downloadedSize := s.downloadedSize + c } : TaskState).totalSize
                = some t →
              ({ s with downloadedSize := s.downloadedSize + c } : TaskState).downloadedSize
                + rest.sum ≤ t := by
          intro t ht
          have := hb t (by simpa using ht)
          simp only [List.sum_cons] at this
          simp only
          omega
        obtain ⟨m1, m2⟩ := ih (i + 1) (fsSet fs path ((fsGet fs path).getD 0 + c))
          { s with downloadedSize := s.downloadedSize + c } hb2
        constructor
        · simp only [streamChunks, hso, Bool.false_eq_true, if_false, if_neg, hc,
            sizeEntries_cons_size]
          exact ⟨Or.inr (Nat.le_add_right _ _), m1⟩
        · intro en hen
          simp only [streamChunks, hso, Bool.false_eq_true, if_false, if_neg, hc,
            sizeEntries_cons_size, List.mem_cons] at hen
          rcases hen with hen | hen
          · subst hen
            cases ht : s.totalSize with
            | none => simp [entryBound]
            | some t =>
              have := hb t ht
              simp only [List.sum_cons] at this
              simp only [entryBound]
              right
              omega
          · exact m2 en hen

/-- Size-trace invariants of one `_download` pass started from a `running`
task with zeroed counters, against a server honouring `wfAttempt S`: the
`downloaded_size` column of the trace never decreases except at the
416-retry reset, every logged value respects the simultaneously known
total except the 416-recovery completion entry, and a retrying pass leaves
its trace ending at zero. -/
theorem runAttempt_sizes (S : Nat) (a : Attempt) (fs : Fs) (s : TaskState)
    (hwf : wfAttempt S a) (hst : s.status = Status.running)
    (hd0 : s.downloadedSize = 0) (ht0 : s.totalSize = none) :
    (∀ fs2 s2 log, runAttempt a fs s = AOut.done fs2 s2 log →
      monoFrom 0 (sizeEntries log) ∧ ∀ en ∈ sizeEntries log, entryBound en) ∧
    (∀ fs2 s2 log, runAttempt a fs s = AOut.retry fs2 s2 log →
      monoFrom 0 (sizeEntries log) ∧ (∀ en ∈ sizeEntries log, entryBound en) ∧
      lastD (sizeEntries log) 0 = 0) := by
  obtain ⟨hw1, hw2, hw3, hw4⟩ := hwf
  obtain ⟨p1, p2, p3, p4, p5⟩ := phaseHead_state a.head s
  have htot := phaseHead_total a.head s
  have hnS : ∀ n dd, a.head = HeadOutcome.ok (some n) dd → n = S := by
    intro n dd hh
    rcases hw1 (some n) dd hh with h | h
    · exact absurd h (by simp)
    · exact Option.some.inj h
  rw [runAttempt]
  generalize hgen : phaseHead a.head s = hd at *
  obtain ⟨sh, ev1⟩ := hd
  simp only at p1 p2 p3 p4 p5 htot ⊢
  have hshst : sh.status = Status.running := by rw [p1, hst]
  have hshd : sh.downloadedSize = 0 := by rw [p2, hd0]
  have hshS : sh.totalSize = none ∨ sh.totalSize = some S := by
    rcases htot with ⟨e1, -⟩ | ⟨n, dd, hh, e1, -⟩
    · left
      rw [e1, ht0]
    · right
      rw [e1, hnS n dd hh]
  have hev1m : monoFrom 0 (sizeEntries ev1) := by
    rcases htot with ⟨-, e2⟩ | ⟨n, dd, hh, -, e2⟩
    · rw [e2]
      exact trivial
    · rw [e2]
      exact ⟨Or.inr (Nat.zero_le _), trivial⟩
  have hev1b : ∀ en ∈ sizeEntries ev1, entryBound en := by
    rcases htot with ⟨-, e2⟩ | ⟨n, dd, hh, -, e2⟩
    · rw [e2]
      intro en hen
      exact absurd hen (List.not_mem_nil en)
    · rw [e2, hd0]
      intro en hen
      have := List.mem_singleton.1 hen
      subst this
      exact Or.inr (Nat.zero_le n)
  have hev1l : lastD (sizeEntries ev1) 0 = 0 := by
    rcases htot with ⟨-, e2⟩ | ⟨n, dd, hh, -, e2⟩
    · simp [e2, lastD]
    · simp [e2, lastD, hd0]
  cases hr : phaseResume fs sh with
  | skip fs2a s2a ev2 =>
    obtain ⟨k1, k2, k3, k4, k5, k6, k7, k8, k9, ⟨tq, kt1, kt2, kt3⟩, k11⟩ :=
      phaseResume_skip_facts hr
    dsimp only
    constructor
    · intro fs2 s2 log hdone
      injection hdone with ha hb hc
      subst ha
      subst hb
      subst hc
      constructor
      · rw [sizeEntries_append, k11]
        exact monoFrom_append hev1m
          (by rw [hev1l]; exact ⟨Or.inr (Nat.zero_le _), trivial⟩)
      · intro en hen
        rw [sizeEntries_append, k11] at hen
        rcases List.mem_append.1 hen with h | h
        · exact hev1b en h
        · have := List.mem_singleton.1 h
          subst this
          rw [kt3, kt2]
          exact Or.inr (Nat.le_refl tq)
    · intro fs2 s2 log hret
      exact absurd hret (by simp)
  | go fs2a s2a ev2 mode off =>
    obtain ⟨g1, g2, g3, g4, g5, g6, g7, g8, g9, g10, gwb, gab, ⟨tg, gsz, gtg1, gtg2⟩⟩ :=
      phaseResume_go_facts hr
    dsimp only
    have hs2ast : s2a.status = Status.running := by rw [g1, hshst]
    have hs2aS : s2a.totalSize = none ∨ s2a.totalSize = some S := by
      rw [g6]
      exact hshS
    have hcompose : ∀ L, monoFrom s2a.downloadedSize L →
        monoFrom 0 (sizeEntries ev1 ++ ((tg, s2a.downloadedSize, s2a.totalSize) :: L)) := by
      intro L hL
      exact monoFrom_append hev1m (by rw [hev1l]; exact ⟨Or.inr (Nat.zero_le _), hL⟩)
    have hEb : entryBound (tg, s2a.downloadedSize, s2a.totalSize) := by
      cases mode with
      | wb =>
        obtain ⟨-, hwz⟩ := gwb rfl
        rw [hwz]
        cases htt : s2a.totalSize with
        | none => exact trivial
        | some t => exact Or.inr (Nat.zero_le t)
      | ab =>
        obtain ⟨-, -, -, -, hor⟩ := gab rfl
        rcases hor with hnone | ⟨t, htt, hlt⟩
        · rw [g6, hnone]
          exact trivial
        · rw [g6, htt]
          exact Or.inr (Nat.le_of_lt hlt)
    have hbcompose : ∀ L, (∀ en ∈ L, entryBound en) →
        ∀ en ∈ sizeEntries ev1 ++ ((tg, s2a.downloadedSize, s2a.totalSize) :: L),
          entryBound en := by
      intro L hL en hen
      rcases List.mem_append.1 hen with h | h
      · exact hev1b en h
      · rcases List.mem_cons.1 h with h | h
        · subst h
          exact hEb
        · exact hL en h
    have hlast : ∀ L, lastD (sizeEntries ev1 ++
        ((tg, s2a.downloadedSize, s2a.totalSize) :: L)) 0 = lastD L s2a.downloadedSize := by
      intro L
      rw [lastD_append]
      rfl
    cases hg : a.get off with
    | netError m =>
      dsimp only
      constructor
      · intro fs2 s2 log hdone
        injection hdone with ha hb hc
        subst ha
        subst hb
        subst hc
        constructor
        · simp only [sizeEntries_append, sizeEntries_cons_getReq, gsz, failTask_sizes,
            List.append_nil, List.append_assoc, List.singleton_append]
          exact hcompose [] trivial
        · intro en hen
          simp only [sizeEntries_append, sizeEntries_cons_getReq, gsz, failTask_sizes,
            List.append_nil, List.append_assoc, List.singleton_append] at hen
          exact hbcompose [] (fun e he => absurd he (List.not_mem_nil e)) en hen
      · intro fs2 s2 log hret
        exact absurd hret (by simp)
    | httpError code =>
      dsimp only
      by_cases h416 : code = 416
      · rw [if_pos h416]
        cases hf : fsGet fs2a s2a.filePath with
        | some existing =>
          dsimp only
          have hle : s2a.downloadedSize ≤ existing := by
            cases mode with
            | wb =>
              obtain ⟨-, hwz⟩ := gwb rfl
              rw [hwz]
              exact Nat.zero_le existing
            | ab =>
              obtain ⟨-, hfs, hfg, -, -⟩ := gab rfl
              rw [hfs, g5, hfg] at hf
              injection hf with hf
              rw [hf]
          cases hro : recoveryOk a.recoveryHead existing with
          | some r =>
            dsimp only
            constructor
            · intro fs2 s2 log hdone
              injection hdone with ha hb hc
              subst ha
              subst hb
              subst hc
              constructor
              · simp only [sizeEntries_append, sizeEntries_cons_getReq,
                  sizeEntries_cons_headReq, sizeEntries_cons_size,
                  sizeEntries_cons_statusSet, sizeEntries_cons_callbacks, sizeEntries_nil,
                  gsz, List.append_assoc, List.singleton_append]
                exact hcompose [(SizeTag.recovery416, existing, some r)]
                  ⟨Or.inr hle, trivial⟩
              · intro en hen
                simp only [sizeEntries_append, sizeEntries_cons_getReq,
                  sizeEntries_cons_headReq, sizeEntries_cons_size,
                  sizeEntries_cons_statusSet, sizeEntries_cons_callbacks, sizeEntries_nil,
                  gsz, List.append_assoc, List.singleton_append] at hen
                refine hbcompose [(SizeTag.recovery416, existing, some r)] ?_ en hen
                intro e he
                have := List.mem_singleton.1 he
                subst this
                exact Or.inl rfl
            · intro fs2 s2 log hret
              exact absurd hret (by simp)
          | none =>
            dsimp only
            by_cases hrc : s2a.retryCount = 0
            · rw [(restart416_facts fs2a s2a _ hs2ast).1 hrc]
              constructor
              · intro fs2 s2 log hdone
                exact absurd hdone (by simp)
              · intro fs2 s2 log hret
                injection hret with ha hb hc
                subst ha
                subst hb
                subst hc
                refine ⟨?_, ?_, ?_⟩
                · simp only [sizeEntries_append, sizeEntries_cons_getReq,
                    sizeEntries_cons_headReq, sizeEntries_cons_size, sizeEntries_nil,
                    gsz, List.append_nil, List.append_assoc, List.singleton_append]
                  exact hcompose [(SizeTag.retryReset, 0, none)] ⟨Or.inl rfl, trivial⟩
                · intro en hen
                  simp only [sizeEntries_append, sizeEntries_cons_getReq,
                    sizeEntries_cons_headReq, sizeEntries_cons_size, sizeEntries_nil,
                    gsz, List.append_nil, List.append_assoc, List.singleton_append] at hen
                  refine hbcompose [(SizeTag.retryReset, 0, none)] ?_ en hen
                  intro e he
                  have := List.mem_singleton.1 he
                  subst this
                  exact trivial
                · simp only [sizeEntries_append, sizeEntries_cons_getReq,
                    sizeEntries_cons_headReq, sizeEntries_cons_size, sizeEntries_nil,
                    gsz, List.append_nil, List.append_assoc, List.singleton_append]
                  exact (hlast [(SizeTag.retryReset, 0, none)]).trans rfl
            · rw [(restart416_facts fs2a s2a _ hs2ast).2 hrc]
              constructor
              · intro fs2 s2 log hdone
                injection hdone with ha hb hc
                subst ha
                subst hb
                subst hc
                constructor
                · simp only [sizeEntries_append, sizeEntries_cons_getReq,
                    sizeEntries_cons_headReq, sizeEntries_cons_statusSet,
                    sizeEntries_cons_callbacks, sizeEntries_nil, gsz, List.append_nil,
                    List.append_assoc, List.singleton_append]
                  exact hcompose [] trivial
                · intro en hen
                  simp only [sizeEntries_append, sizeEntries_cons_getReq,
                    sizeEntries_cons_headReq, sizeEntries_cons_statusSet,
                    sizeEntries_cons_callbacks, sizeEntries_nil, gsz, List.append_nil,
                    List.append_assoc, List.singleton_append] at hen
                  exact hbcompose [] (fun e he => absurd he (List.not_mem_nil e)) en hen
              · intro fs2 s2 log hret
                exact absurd hret (by simp)
        | none =>
          dsimp only
          by_cases hrc : s2a.retryCount = 0
          · rw [(restart416_facts fs2a s2a _ hs2ast).1 hrc]
            constructor
            · intro fs2 s2 log hdone
              exact absurd hdone (by simp)
            · intro fs2 s2 log hret
              injection hret with ha hb hc
              subst ha
              subst hb
              subst hc
              refine ⟨?_, ?_, ?_⟩
              · simp only [sizeEntries_append, sizeEntries_cons_getReq,
                  sizeEntries_cons_size, sizeEntries_nil, gsz, List.append_nil,
                  List.append_assoc, List.singleton_append]
                exact hcompose [(SizeTag.retryReset, 0, none)] ⟨Or.inl rfl, trivial⟩
              · intro en hen
                simp only [sizeEntries_append, sizeEntries_cons_getReq,
                  sizeEntries_cons_size, sizeEntries_nil, gsz, List.append_nil,
                  List.append_assoc, List.singleton_append] at hen
                refine hbcompose [(SizeTag.retryReset, 0, none)] ?_ en hen
                intro e he
                have := List.mem_singleton.1 he
                subst this
                exact trivial
              · simp only [sizeEntries_append, sizeEntries_cons_getReq,
                  sizeEntries_cons_size, sizeEntries_nil, gsz, List.append_nil,
                  List.append_assoc, List.singleton_append]
                exact (hlast [(SizeTag.retryReset, 0, none)]).trans rfl
          · rw [(restart416_facts fs2a s2a _ hs2ast).2 hrc]
            constructor
            · intro fs2 s2 log hdone
              injection hdone with ha hb hc
              subst ha
              subst hb
              subst hc
              constructor
              · simp only [sizeEntries_append, sizeEntries_cons_getReq,
                  sizeEntries_cons_statusSet, sizeEntries_cons_callbacks, sizeEntries_nil,
                  gsz, List.append_nil, List.append_assoc, List.singleton_append]
                exact hcompose [] trivial
              · intro en hen
                simp only [sizeEntries_append, sizeEntries_cons_getReq,
                  sizeEntries_cons_statusSet, sizeEntries_cons_callbacks, sizeEntries_nil,
                  gsz, List.append_nil, List.append_assoc, List.singleton_append] at hen
                exact hbcompose [] (fun e he => absurd he (List.not_mem_nil e)) en hen
            · intro fs2 s2 log hret
              exact absurd hret (by simp)
      · rw [if_neg h416]
        constructor
        · intro fs2 s2 log hdone
          injection hdone with ha hb hc
          subst ha
          subst hb
          subst hc
          constructor
          · simp only [sizeEntries_append, sizeEntries_cons_getReq, gsz, failTask_sizes,
              List.append_nil, List.append_assoc, List.singleton_append]
            exact hcompose [] trivial
          · intro en hen
            simp only [sizeEntries_append, sizeEntries_cons_getReq, gsz, failTask_sizes,
              List.append_nil, List.append_assoc, List.singleton_append] at hen
            exact hbcompose [] (fun e he => absurd he (List.not_mem_nil e)) en hen
        · intro fs2 s2 log hret
          exact absurd hret (by simp)
    | ok cl disp chunks stopAt =>
      dsimp only
      obtain ⟨r1, r2, r3, r4, r5, r6⟩ := getRename_state disp mode s2a
      obtain ⟨t1, t2, t3, t4, t5, t6, t7, t8, t9⟩ :=
        phaseGetTotal_state cl mode (getRename disp mode s2a)
      have htot4 := phaseGetTotal_total cl mode (getRename disp mode s2a)
      generalize hgt : phaseGetTotal cl mode (getRename disp mode s2a) = gt at *
      obtain ⟨s4, ev4⟩ := gt
      simp only at t1 t2 t3 t4 t5 t6 t7 t8 t9 htot4 ⊢
      have hs4d : s4.downloadedSize = s2a.downloadedSize := by rw [t2, r2]
      have hpre : ∀ t, s4.totalSize = some t → s4.downloadedSize + chunks.sum ≤ t := by
        cases mode with
        | wb =>
          obtain ⟨hoff, hwz⟩ := gwb rfl
          rw [hoff] at hg
          obtain ⟨hcl, hsum⟩ := hw3 cl disp chunks stopAt hg
          intro t ht
          rw [hs4d, hwz]
          rcases htot4 with ⟨e1, -⟩ | ⟨hnone, n, hcln, e1, -⟩
          · rw [e1, r5] at ht
            rcases hs2aS with h | h
            · rw [h] at ht
              exact absurd ht (by simp)
            · rw [h] at ht
              injection ht with ht
              subst ht
              omega
          · have e1x : s4.totalSize = some (n + 0) := e1
            rw [e1x] at ht
            injection ht with ht
            subst ht
            rw [hcln] at hcl
            rcases hcl with h2 | h2
            · exact absurd h2 (by simp)
            · injection h2 with h2
              omega
        | ab =>
          obtain ⟨hoff, hfs, hfg, hpos, hor⟩ := gab rfl
          rw [hoff] at hg
          obtain ⟨hleS, hcl, hsum⟩ := hw4 s2a.downloadedSize cl disp chunks stopAt hg
          intro t ht
          rw [hs4d]
          rcases htot4 with ⟨e1, -⟩ | ⟨hnone, n, hcln, e1, -⟩
          · rw [e1, r5] at ht
            rcases hs2aS with h | h
            · rw [h] at ht
              exact absurd ht (by simp)
            · rw [h] at ht
              injection ht with ht
              subst ht
              omega
          · have e1x : s4.totalSize =
                some (n + (getRename disp FMode.ab s2a).downloadedSize) := e1
            rw [r2] at e1x
            rw [e1x] at ht
            injection ht with ht
            subst ht
            rw [hcln] at hcl
            injection hcl with hcl
            omega
      obtain ⟨sm, sb⟩ := streamChunks_sizes stopAt s4.filePath chunks 0
        (openFile mode fs2a s4.filePath) s4 hpre
      generalize hstr : streamChunks stopAt s4.filePath chunks 0
        (openFile mode fs2a s4.filePath) s4 = st at *
      obtain ⟨stfs, sts, stlog, stb⟩ := st
      simp only at sm sb ⊢
      have hLm : monoFrom s2a.downloadedSize (sizeEntries ev4 ++ sizeEntries stlog) := by
        rcases htot4 with ⟨-, e2⟩ | ⟨hnone, n, hcln, e1, e2⟩
        · rw [e2, List.nil_append, ← hs4d]
          exact sm
        · rw [e2]
          refine monoFrom_append ⟨Or.inr (Nat.le_of_eq r2.symm), trivial⟩ ?_
          show monoFrom (getRename disp mode s2a).downloadedSize (sizeEntries stlog)
          have h34 : (getRename disp mode s2a).downloadedSize = s4.downloadedSize := by
            rw [r2, hs4d]
          rw [h34]
          exact sm
      have hLb : ∀ en ∈ sizeEntries ev4 ++ sizeEntries stlog, entryBound en := by
        intro en hen
        rcases List.mem_append.1 hen with h | h
        · rcases htot4 with ⟨-, e2⟩ | ⟨hnone, n, hcln, e1, e2⟩
          · rw [e2] at h
            exact absurd h (List.not_mem_nil en)
          · rw [e2] at h
            have := List.mem_singleton.1 h
            subst this
            cases mode with
            | wb =>
              obtain ⟨-, hwz⟩ := gwb rfl
              refine Or.inr ?_
              rw [r2, hwz]
              exact Nat.zero_le _
            | ab =>
              exact Or.inr (Nat.le_add_left _ n)
        · exact sb en h
      cases stb with
      | true =>
        rw [if_pos rfl]
        constructor
        · intro fs2 s2 log hdone
          injection hdone with ha hb hc
          subst ha
          subst hb
          subst hc
          constructor
          · simp only [sizeEntries_append, sizeEntries_cons_getReq, gsz,
              List.append_assoc, List.singleton_append]
            exact hcompose (sizeEntries ev4 ++ sizeEntries stlog) hLm
          · intro en hen
            simp only [sizeEntries_append, sizeEntries_cons_getReq, gsz,
              List.append_assoc, List.singleton_append] at hen
            exact hbcompose (sizeEntries ev4 ++ sizeEntries stlog) hLb en hen
        · intro fs2 s2 log hret
          exact absurd hret (by simp)
      | false =>
        rw [if_neg (by simp)]
        constructor
        · intro fs2 s2 log hdone
          injection hdone with ha hb hc
          subst ha
          subst hb
          subst hc
          constructor
          · simp only [sizeEntries_append, sizeEntries_cons_getReq, gsz, finishOk_sizes,
              List.append_nil, List.append_assoc, List.singleton_append]
            exact hcompose (sizeEntries ev4 ++ sizeEntries stlog) hLm
          · intro en hen
            simp only [sizeEntries_append, sizeEntries_cons_getReq, gsz, finishOk_sizes,
              List.append_nil, List.append_assoc, List.singleton_append] at hen
            exact hbcompose (sizeEntries ev4 ++ sizeEntries stlog) hLb en hen
        · intro fs2 s2 log hret
          exact absurd hret (by simp)

/-- C5 counterexample: (a) after a 416 whose recovery HEAD shows the local
file (1200 bytes) is larger than the remote total (1000), the task
completes with `downloaded_size = 1200 > total_size = 1000`, refuting
"downloaded_size never exceeds total_size once known"; and (b) in the
416-retry world the downloaded-size trace of a single run goes
`1200, 0, 0, 0, 1000`, refuting "monotonically non-decreasing within a
single run" at the reset. -/
theorem c5_counterexample :
    ((startRun [c5AttA, c5AttA] [(['f'], 1200)] (mkTask [] ['f'] true [])).s.downloadedSize
        = 1200 ∧
      (startRun [c5AttA, c5AttA] [(['f'], 1200)]
        (mkTask [] ['f'] true [])).s.totalSize = some 1000 ∧
      (startRun [c5AttA, c5AttA] [(['f'], 1200)]
        (mkTask [] ['f'] true [])).s.status = Status.completed ∧
      (1000 : Nat) < 1200) ∧
    ((sizeEntries (startRun [c5AttB1, c5AttB2] [(['f'], 1200)]
        (mkTask [] ['f'] true [])).logs.flatten).map (fun en => en.2.1) =
      [1200, 0, 0, 0, 1000]) := by
  exact ⟨⟨by decide, by decide, by decide, by decide⟩, by decide⟩

/-- C5 (amended): against any server honouring `wfAttempt` (content lengths
consistent with a fixed remote size, bodies within the announced length)
for the initial pass and for the 416-retry pass, the `downloaded_size`
trace of a whole worker run from a fresh task is non-decreasing except at
the 416-retry reset (which restarts the transfer from zero), and every
traced value is bounded by the simultaneously recorded total except the
416-recovery completion entry (which copies the possibly larger on-disk
size). -/
theorem c5_sizes_amended (S1 S2 : Nat) (a1 a2 : Attempt) (u p : Str) (ur : Bool)
    (hs : Headers) (fs : Fs) (hw1 : wfAttempt S1 a1) (hw2 : wfAttempt S2 a2) :
    monoFrom 0 (sizeEntries (startRun [a1, a2] fs (mkTask u p ur hs)).logs.flatten) ∧
    ∀ en ∈ sizeEntries (startRun [a1, a2] fs (mkTask u p ur hs)).logs.flatten,
      entryBound en := by
  rw [startRun,
    if_pos (show (mkTask u p ur hs).status = Status.pending from rfl)]
  cases ho : runAttempt a1 fs { mkTask u p ur hs with status := Status.running } with
  | done fs2 s2 log =>
    obtain ⟨m1, b1⟩ := (runAttempt_sizes S1 a1 fs
      { mkTask u p ur hs with status := Status.running } hw1 rfl rfl rfl).1 fs2 s2 log ho
    simp only [runDownload, ho]
    constructor
    · simp only [List.flatten_cons, List.flatten_nil, List.append_nil,
        List.singleton_append, sizeEntries_cons_statusSet]
      exact m1
    · intro en hen
      simp only [List.flatten_cons, List.flatten_nil, List.append_nil,
        List.singleton_append, sizeEntries_cons_statusSet] at hen
      exact b1 en hen
  | retry fs2 s2 log =>
    obtain ⟨r0, r1, r2e, r3, r4, r5, r6, r7, r8, r9⟩ :=
      (runAttempt_shape a1 fs { mkTask u p ur hs with status := Status.running } rfl).2
        fs2 s2 log ho
    obtain ⟨m1, b1, l1⟩ := (runAttempt_sizes S1 a1 fs
      { mkTask u p ur hs with status := Status.running } hw1 rfl rfl rfl).2 fs2 s2 log ho
    simp only [runDownload, ho]
    cases ho2 : runAttempt a2 fs2 s2 with
    | done fs3 s3 log2 =>
      obtain ⟨m2, b2⟩ := (runAttempt_sizes S2 a2 fs2 s2 hw2 r1 r5 r6).1 fs3 s3 log2 ho2
      simp only [ho2]
      constructor
      · simp only [List.flatten_cons, List.flatten_nil, List.append_nil,
          List.singleton_append, sizeEntries_cons_statusSet, sizeEntries_append]
        exact monoFrom_append m1 (by rw [l1]; exact m2)
      · intro en hen
        simp only [List.flatten_cons, List.flatten_nil, List.append_nil,
          List.singleton_append, sizeEntries_cons_statusSet, sizeEntries_append] at hen
        rcases List.mem_append.1 hen with h | h
        · exact b1 en h
        · exact b2 en h
    | retry fs3 s3 log2 =>
      have h0 := ((runAttempt_shape a2 fs2 s2 r1).2 fs3 s3 log2 ho2).1
      rw [r4] at h0
      exact absurd h0 (by simp)

theorem c5_sizes_amended_witness :
    wfAttempt 100 c5WitnessAtt ∧
    monoFrom 0 (sizeEntries
      (startRun [c5WitnessAtt, c5WitnessAtt] []
        (mkTask [] ['f'] true [])).logs.flatten) := by
  have hwf : wfAttempt 100 c5WitnessAtt := by
    refine ⟨?_, ?_, ?_, ?_⟩
    · intro cl d h
      injection h with h1 h2
      exact Or.inr h1.symm
    · intro cl d h
      exact absurd h (by simp [c5WitnessAtt])
    · intro cl d ch st h
      injection h with h1 h2 h3 h4
      refine ⟨Or.inr h1.symm, ?_⟩
      rw [← h3]
      decide
    · intro o cl d ch st h
      exact absurd h (by simp [c5WitnessAtt])
  exact ⟨hwf, (c5_sizes_amended 100 100 c5WitnessAtt c5WitnessAtt [] ['f'] true [] []
    hwf hwf).1⟩

/-! ## Claim C8 — extended `filename*` takes priority over plain `filename` -/

theorem startsWithL_self_append (xs ys : Str) : startsWithL xs (xs ++ ys) = true := by
  induction xs with
  | nil => rfl
  | cons c r ih => simp [startsWithL, ih]

theorem scanQuoted_append (p r : Str) (hq : ∀ c ∈ p, c ≠ '"') :
    scanQuoted (p ++ '"' :: r) = some (p, r) := by
  induction p with
  | nil => rfl
  | cons a ps ih =>
    have ha : ¬(a = '"') := hq a (by simp)
    rw [List.cons_append, scanQuoted, if_neg ha,
      ih (fun c hc => hq c (by simp [hc]))]

theorem scanToken_all (l : Str) (h : ∀ c ∈ l, nonDelim c = true) :
    scanToken l = l ∧ dropToken l = [] := by
  induction l with
  | nil => exact ⟨rfl, rfl⟩
  | cons c r ih =>
    obtain ⟨ih1, ih2⟩ := ih (fun d hd => h d (by simp [hd]))
    have hc := h c (by simp)
    constructor
    · rw [scanToken, if_pos hc, ih1]
    · rw [dropToken, if_pos hc, ih2]

theorem pctDecode_ne_nil (l : Str) (h : l ≠ []) : pctDecode l ≠ [] := by
  cases l with
  | nil => exact absurd rfl h
  | cons c rest =>
    by_cases hc : c = '%'
    · subst hc
      cases rest with
      | nil => simp [pctDecode]
      | cons a rest1 =>
        cases rest1 with
        | nil => simp [pctDecode]
        | cons b rest2 =>
          cases hx : hexVal a <;> cases hy : hexVal b <;> simp [pctDecode, hx, hy]
    · rw [pctDecode.eq_def]
      dsimp only
      rw [if_neg hc]
      simp

theorem matchAt_ne_f {c : Char} {cs : Str} (h : ('f' == c) = false) :
    matchAt (c :: cs) = none := by
  have hs : startsWithL filenameMark (c :: cs) = false := by
    rw [show startsWithL filenameMark (c :: cs) =
        (('f' == c) && startsWithL ['i', 'l', 'e', 'n', 'a', 'm', 'e'] cs) from rfl, h]
    exact Bool.false_and _
  rw [matchAt, if_neg (by rw [hs]; simp)]

theorem findAll_skipPre : ∀ (pre : Str), (∀ c ∈ pre, ('f' == c) = false) →
    ∀ cs, findAll (pre ++ cs) = findAll cs := by
  intro pre
  induction pre with
  | nil =>
    intro h cs
    rw [List.nil_append]
  | cons c r ih =>
    intro h cs
    rw [List.cons_append, findAll_cons_none (matchAt_ne_f (h c (by simp)))]
    exact ih (fun d hd => h d (by simp [hd])) cs

theorem matchAt_quoted (p tail2 : Str) (hp : p ≠ []) (hq : ∀ c ∈ p, c ≠ '"') :
    matchAt (filenameMark ++ '=' :: '"' :: (p ++ '"' :: tail2)) =
      some ⟨some p, none, tail2⟩ := by
  have hpE : p.isEmpty = false := by
    cases p with
    | nil => exact absurd rfl hp
    | cons a r => rfl
  have step : matchAt (filenameMark ++ '=' :: '"' :: (p ++ '"' :: tail2)) =
      (match scanQuoted (p ++ '"' :: tail2) with
       | some (cont, rest) =>
         if cont.isEmpty then matchUnquoted ('"' :: (p ++ '"' :: tail2))
         else some ⟨some cont, none, rest⟩
       | none => matchUnquoted ('"' :: (p ++ '"' :: tail2))) := rfl
  rw [step, scanQuoted_append p tail2 hq]
  simp only [hpE, Bool.false_eq_true, if_false, if_neg]

/-- The second regex match of the C8 header family: `filename*=` followed
by the bare token `UTF-8''<e>`, matched by the unquoted alternative. -/
theorem matchAt_star (e : Str) (hd : ∀ c ∈ e, nonDelim c = true) :
    matchAt (filenameMark ++ '*' :: '=' :: (utf8Mark ++ e)) =
      some ⟨none, some (utf8Mark ++ e), []⟩ := by
  have hall : ∀ c ∈ utf8Mark ++ e, nonDelim c = true := by
    intro c hc
    rcases List.mem_append.1 hc with h | h
    · simp only [utf8Mark, List.mem_cons, List.not_mem_nil, or_false] at h
      rcases h with rfl | rfl | rfl | rfl | rfl | rfl | rfl <;> decide
    · exact hd c h
  obtain ⟨h1, h2⟩ := scanToken_all (utf8Mark ++ e) hall
  have step : matchAt (filenameMark ++ '*' :: '=' :: (utf8Mark ++ e)) =
      matchUnquoted (utf8Mark ++ e) := rfl
  have hne : (utf8Mark ++ e).isEmpty = false := rfl
  rw [step, matchUnquoted, h1, h2, hne]
  simp

theorem findAll_c8Header (p e : Str) (hp : p ≠ []) (hq : ∀ c ∈ p, c ≠ '"')
    (hd : ∀ c ∈ e, nonDelim c = true) :
    findAll (c8Header p e) = [(p, []), ([], utf8Mark ++ e)] := by
  have e1 : findAll (c8Header p e) =
      findAll (filenameMark ++ '=' :: '"' :: (p ++ ('"' :: c8Tail e))) :=
    findAll_skipPre c8Pre (by decide) _
  have e2 := matchAt_quoted p (c8Tail e) hp hq
  have e3 : findAll (filenameMark ++ '=' :: '"' :: (p ++ ('"' :: c8Tail e))) =
      (p, []) :: findAll (c8Tail e) := by
    simpa using findAll_cons_some e2
  have e4 : findAll (c8Tail e) =
      findAll (filenameMark ++ '*' :: '=' :: (utf8Mark ++ e)) :=
    findAll_skipPre [';', ' '] (by decide) (filenameMark ++ '*' :: '=' :: (utf8Mark ++ e))
  have e5 := matchAt_star e hd
  have e6 : findAll (filenameMark ++ '*' :: '=' :: (utf8Mark ++ e)) =
      [([], utf8Mark ++ e)] := by
    have h7 := findAll_cons_some e5
    rw [show findAll ((⟨none, some (utf8Mark ++ e), []⟩ : MatchRes).rest) = []
      from rfl] at h7
    simpa using h7
  rw [e1, e3, e4, e6]

theorem pickStep_star (e : Str) :
    ∀ acc, pickStep acc ([], utf8Mark ++ e) = (some (pctDecode e), acc.2) := by
  intro acc
  have hsw := startsWithL_self_append utf8Mark e
  have hdrop : (utf8Mark ++ e).drop 7 = e := rfl
  rw [pickStep]
  simp only [hsw, Bool.or_true, if_true, List.isEmpty_nil, if_pos, hdrop]

/-- C8: for every Content-Disposition header carrying both a (non-empty,
quote-free) plain `filename="<p>"` parameter and an RFC 5987 extended
`filename*=UTF-8''<e>` parameter whose value is a non-empty run of
non-delimiter characters, `_extract_filename_from_header` returns the
percent-decoded extended-form name — the extended form wins over the plain
form — with illegal filesystem characters replaced by `_` (and surrounding
whitespace stripped, as the code always does). -/
theorem c8_extended_priority (p e : Str) (hp : p ≠ []) (hq : ∀ c ∈ p, c ≠ '"')
    (he : e ≠ []) (hd : ∀ c ∈ e, nonDelim c = true) :
    extractFilenameL (c8Header p e) =
      some (stripL ((pctDecode e).map sanitizeChar)) := by
  have hhe : (c8Header p e).isEmpty = false := rfl
  have hpick : (pickName [(p, []), ([], utf8Mark ++ e)]).1 = some (pctDecode e) := by
    rw [pickName]
    simp only [List.foldl_cons, List.foldl_nil]
    rw [pickStep_star]
  have hpe : (pctDecode e).isEmpty = false := by
    cases hpd : pctDecode e with
    | nil => exact absurd hpd (pctDecode_ne_nil e he)
    | cons a r => rfl
  rw [extractFilenameL, if_neg (by rw [hhe]; simp),
    findAll_c8Header p e hp hq hd]
  dsimp only
  rw [hpick]
  dsimp only
  rw [hpe]
  simp
  exact pctDecode_ne_nil e he

theorem c8_extended_priority_witness :
    ((['a'] : Str) ≠ [] ∧ (∀ c ∈ (['a'] : Str), c ≠ '"') ∧
      (['r', '%', '2', '0', 'x'] : Str) ≠ [] ∧
      (∀ c ∈ (['r', '%', '2', '0', 'x'] : Str), nonDelim c = true)) ∧
    extractFilenameL (c8Header ['a'] ['r', '%', '2', '0', 'x']) =
      some (stripL ((pctDecode ['r', '%', '2', '0', 'x']).map sanitizeChar)) := by
  refine ⟨⟨by decide, by decide, by decide, by decide⟩, ?_⟩
  exact c8_extended_priority ['a'] ['r', '%', '2', '0', 'x']
    (by decide) (by decide) (by decide) (by decide)

end CivitaiDl
